import Mathlib

/-!
Verification of the Minimus routing and response-normalization core.

This file gives a shallow embedding, in Lean, of the routing / dispatch /
response code of the Minimus web framework (`minimus.py`, with the historical
variant `minimus.0.0.3.2.py` embedded under the `V0032` namespace where the two
files differ), and proves properties of that embedding.

Python modelling conventions used throughout:
* a Python `str` is a Lean `String` (a wrapper around `List Char`);
* `s.split('/')` is `pySplit '/' s`, `'/'.join xs` is `pyJoin "/" xs`;
* `needle in hay` (substring test) is `pyContains needle hay`;
* exceptions are modelled with `Option`/`Except`: `none` / `.error` means the
  Python code raised;
* Python `bytes` values are `List Nat` (one `Nat` per byte);
* a Python `dict` built by item assignment is an association list updated by
  `dictInsert`, which preserves first-insertion order and overwrites in place,
  exactly like a Python `dict`.
-/

/-- Python `s.split(sep)` for a one-character separator: `List.splitOn` on the
character list has exactly Python's semantics (`"".split('/') == ['']`,
`"a//b".split('/') == ['a','','b']`). -/
def pySplit (sep : Char) (s : String) : List String :=
  (s.data.splitOn sep).map String.mk

/-- Worker for Python `sep.join`: interleave the separator between the
items. -/
def joinChars (sep : List Char) : List (List Char) → List Char
  | [] => []
  | [x] => x
  | x :: y :: rest => x ++ sep ++ joinChars sep (y :: rest)

/-- Python `sep.join(xs)`. -/
def pyJoin (sep : String) (xs : List String) : String :=
  ⟨joinChars sep.data (xs.map String.data)⟩

/-- Structural substring check on character lists (used to model Python's
`needle in hay` on strings). -/
def isInfixB (needle : List Char) : List Char → Bool
  | [] => needle.isEmpty
  | c :: cs => needle.isPrefixOf (c :: cs) || isInfixB needle cs

/-- Python `needle in hay` for strings. -/
def pyContains (needle hay : String) : Bool :=
  isInfixB needle.data hay.data

/-- Python `c in s` for a single character `c`. -/
def pyContainsChar (c : Char) (s : String) : Bool :=
  s.data.contains c

/-- Python `s.find(c)`: index of the first occurrence, `-1` when absent. -/
def pyFind (s : String) (c : Char) : Int :=
  match s.data.findIdx? (· == c) with
  | some n => (n : Int)
  | none => -1

/-- Python `s[a:b]` for `0 ≤ a`, `b ≥ 0` (the only form the source uses). -/
def pySlice (s : String) (a b : Nat) : String :=
  ⟨(s.data.take b).drop a⟩

/-- Python `s.startswith(pre)`. -/
def pyStartsWith (s pre : String) : Bool :=
  pre.data.isPrefixOf s.data

/-- Python `s.endswith(suf)`. -/
def pyEndsWith (s suf : String) : Bool :=
  suf.data.isSuffixOf s.data

/-- Python `s.lower()`. -/
def pyLower (s : String) : String :=
  ⟨s.data.map Char.toLower⟩

/-- Fuel-indexed worker for Python `s.replace(pat, rep)`: scans left to right,
replacing non-overlapping occurrences.  The fuel (initially the length of the
scanned list) makes the recursion structural so that it computes by `rfl`. -/
def replaceListAux (pat rep : List Char) : Nat → List Char → List Char
  | _, [] => []
  | 0, l => l
  | fuel + 1, c :: cs =>
    if pat.isPrefixOf (c :: cs) && !pat.isEmpty then
      rep ++ replaceListAux pat rep fuel (cs.drop (pat.length - 1))
    else
      c :: replaceListAux pat rep fuel cs

/-- Python `s.replace(pat, rep)` (all occurrences, left to right). -/
def pyReplace (s pat rep : String) : String :=
  ⟨replaceListAux pat.data rep.data s.data.length s.data⟩

/-- Association lists standing for Python `dict`s whose keys and values are
strings (the `kwargs` of `route_match`). -/
abbrev Dict := List (String × String)

/-- Python `d[k] = v` on a dict: overwrite in place when the key is present
(keeping first-insertion order), append otherwise. -/
def dictInsert (d : Dict) (k v : String) : Dict :=
  if d.any (fun p => p.1 == k) then
    d.map (fun p => if p.1 == k then (k, v) else p)
  else
    d ++ [(k, v)]

/-- Python `d.get(k, None)` on an association list. -/
def dictGet (d : List (String × String)) (k : String) : Option String :=
  (d.find? (fun p => p.1 == k)).map (·.2)

/-! ## `route_match` (minimus.py, lines 72-113)

The greedy marker in this file is the literal substring `:path` (the route
docstring shows the form `/something/<mypath:path>`), and the greedy capture
keeps its leading slash. -/

/-- The `while i < len(pparts): pathval += '/' + pparts[i]` accumulation of the
greedy branch of `route_match`. -/
def greedyAccum (pparts : List String) (idx : Nat) : String :=
  (pparts.drop idx).foldl (fun acc p => acc ++ ("/" ++ p)) ""

/-- The `for idx, rp in enumerate(rparts)` loop of `route_match` in
`minimus.py`.  `none` models an uncaught `IndexError` from `pparts[idx]`. -/
def matchLoop (pparts : List String) : List String → Nat → Dict → Option (Bool × Dict)
  | [], _, kwargs => some (true, kwargs)
  | rp :: rest, idx, kwargs =>
    if pyContainsChar '<' rp then
      let b1 := pyFind rp '<'
      let b2 := pyFind rp '>'
      if b2 ≤ b1 then
        some (false, kwargs)
      else
        let varname := pySlice rp (b1.toNat + 1) b2.toNat
        if pyContains ":path" varname then
          let varname2 := pyReplace varname ":path" ""
          some (true, dictInsert kwargs varname2 (greedyAccum pparts idx))
        else
          match pparts[idx]? with
          | none => none
          | some pv => matchLoop pparts rest (idx + 1) (dictInsert kwargs varname pv)
    else
      match pparts[idx]? with
      | none => none
      | some pv =>
        if rp ≠ pv then some (false, kwargs)
        else matchLoop pparts rest (idx + 1) kwargs

/-- `route_match(route, path)` from `minimus.py`: returns the match flag and
the extracted keyword arguments; `none` models an uncaught exception. -/
def route_match (route path : String) : Option (Bool × Dict) :=
  let rparts := pySplit '/' route
  let pparts := pySplit '/' path
  if pyContains ":path" route = false ∧ rparts.length ≠ pparts.length then
    some (false, [])
  else
    matchLoop pparts rparts 0 []

/-! ## `route_encode` (minimus.py, lines 115-139) -/

/-- Abnormal results of `route_encode`: on a malformed segment the Python code
returns the pair `(False, kwargs)` instead of a URL string; on a missing or
falsy (empty) variable value it raises `ValueError`. -/
inductive EncodeErr where
  | malformedPair (kwargs : Dict)
  | valueError (varname : String)
  deriving DecidableEq

/-- The `for rp in rparts` loop of `route_encode`, building `nparts`. -/
def encodeLoop (kwargs : Dict) : List String → Except EncodeErr (List String)
  | [] => .ok []
  | rp :: rest =>
    if pyContainsChar '<' rp then
      let b1 := pyFind rp '<'
      let b2 := pyFind rp '>'
      if b2 ≤ b1 then
        .error (.malformedPair kwargs)
      else
        let varname := pySlice rp (b1.toNat + 1) b2.toNat
        match dictGet kwargs varname with
        | some v =>
          if v ≠ "" then (encodeLoop kwargs rest).map (fun ns => v :: ns)
          else .error (.valueError varname)
        | none => .error (.valueError varname)
    else
      (encodeLoop kwargs rest).map (fun ns => rp :: ns)

/-- `route_encode(route, **kwargs)` from `minimus.py`: substitute variable
values positionally and rejoin with `/`.  Values are modelled as strings
(Python stringifies them with `str`). -/
def route_encode (route : String) (kwargs : Dict) : Except EncodeErr String :=
  (encodeLoop kwargs (pySplit '/' route)).map (pyJoin "/")

namespace V0032

/-! ## `route_match` (minimus.0.0.3.2.py, lines 483-549)

This variant's greedy marker is the literal substring `path:` (segment form
`<path:name>`), and it strips a single leading `/` from the captured
remainder. -/

/-- The segment loop of `route_match` in `minimus.0.0.3.2.py`. -/
def matchLoop (pparts : List String) : List String → Nat → Dict → Option (Bool × Dict)
  | [], _, kwargs => some (true, kwargs)
  | rp :: rest, idx, kwargs =>
    if pyContainsChar '<' rp then
      let b1 := pyFind rp '<'
      let b2 := pyFind rp '>'
      if b2 ≤ b1 then
        some (false, kwargs)
      else
        let varname := pySlice rp (b1.toNat + 1) b2.toNat
        if pyContains "path:" varname then
          let varname2 := pyReplace varname "path:" ""
          let pathval := greedyAccum pparts idx
          let pathval2 := if pyStartsWith pathval "/" then ⟨pathval.data.drop 1⟩ else pathval
          some (true, dictInsert kwargs varname2 pathval2)
        else
          match pparts[idx]? with
          | none => none
          | some pv => matchLoop pparts rest (idx + 1) (dictInsert kwargs varname pv)
    else
      match pparts[idx]? with
      | none => none
      | some pv =>
        if rp ≠ pv then some (false, kwargs)
        else matchLoop pparts rest (idx + 1) kwargs

/-- `route_match(route, path)` from `minimus.0.0.3.2.py`. -/
def route_match (route path : String) : Option (Bool × Dict) :=
  let rparts := pySplit '/' route
  let pparts := pySplit '/' path
  if pyContains "path:" route = false ∧ rparts.length ≠ pparts.length then
    some (false, [])
  else
    matchLoop pparts rparts 0 []

end V0032

/-! ## JSON values and `json.dumps` (used by `Minimus.jsonify`) -/

/-- JSON-able Python values (the argument of `json.dumps` in `jsonify`). -/
inductive Jx where
  | jnull
  | jbool (b : Bool)
  | jnum (n : Int)
  | jstr (s : String)
  | jarr (xs : List Jx)
  | jobj (fields : List (String × Jx))

/-- Hexadecimal digit characters for `\uXXXX` escapes. -/
def hexDigitChar (n : Nat) : Char :=
  if n < 10 then Char.ofNat (48 + n) else Char.ofNat (87 + n % 6)

/-- Four-digit lowercase hex of `n < 0x10000`, as `json.dumps` prints it. -/
def hex4 (n : Nat) : List Char :=
  [hexDigitChar (n / 4096 % 16), hexDigitChar (n / 256 % 16),
   hexDigitChar (n / 16 % 16), hexDigitChar (n % 16)]

/-- Escape one character the way `json.dumps` (default `ensure_ascii=True`)
does inside a string literal. -/
def jsonEscapeChar (c : Char) : List Char :=
  if c = '"' then ['\\', '"']
  else if c = '\\' then ['\\', '\\']
  else if c = '\n' then ['\\', 'n']
  else if c = '\t' then ['\\', 't']
  else if c = '\r' then ['\\', 'r']
  else if c = Char.ofNat 8 then ['\\', 'b']
  else if c = Char.ofNat 12 then ['\\', 'f']
  else if c.toNat < 32 ∨ c.toNat > 126 then
    if c.toNat < 65536 then '\\' :: 'u' :: hex4 c.toNat
    else
      let m := c.toNat - 65536
      ('\\' :: 'u' :: hex4 (55296 + m / 1024)) ++ ('\\' :: 'u' :: hex4 (56320 + m % 1024))
  else [c]

/-- A JSON string literal, quotes included. -/
def jsonQuote (s : String) : String :=
  ⟨'"' :: (s.data.map jsonEscapeChar).flatten ++ ['"']⟩

mutual

/-- `json.dumps` with its default separators `", "` and `": "`. -/
def jxDump : Jx → String
  | .jnull => "null"
  | .jbool true => "true"
  | .jbool false => "false"
  | .jnum n => toString n
  | .jstr s => jsonQuote s
  | .jarr xs => "[" ++ pyJoin ", " (jxDumpList xs) ++ "]"
  | .jobj fs => "\x7b" ++ pyJoin ", " (jxDumpFields fs) ++ "\x7d"

/-- Elementwise `json.dumps` of an array's members. -/
def jxDumpList : List Jx → List String
  | [] => []
  | x :: xs => jxDump x :: jxDumpList xs

/-- `json.dumps` rendering of an object's `key: value` pairs. -/
def jxDumpFields : List (String × Jx) → List String
  | [] => []
  | (k, v) :: fs => (jsonQuote k ++ ": " ++ jxDump v) :: jxDumpFields fs

end

/-! ## Python response values -/

/-- UTF-8 encoding of one character (code point to bytes). -/
def utf8EncodeChar (c : Char) : List Nat :=
  let n := c.toNat
  if n < 128 then [n]
  else if n < 2048 then [192 + n / 64, 128 + n % 64]
  else if n < 65536 then [224 + n / 4096, 128 + n / 64 % 64, 128 + n % 64]
  else [240 + n / 262144, 128 + n / 4096 % 64, 128 + n / 64 % 64, 128 + n % 64]

/-- Python `s.encode('UTF-8')` as a byte list (the app's default charset; the
`'ignore'` error mode never fires since UTF-8 encodes every code point). -/
def utf8Bytes (s : String) : List Nat :=
  (s.data.map utf8EncodeChar).flatten

/-- The Python values that flow through `render_to_response` as a response
body: a `str`, a `bytes` value, a JSON-able `dict`, or `None`. -/
inductive PyObj where
  | pstr (s : String)
  | pbytes (bs : List Nat)
  | pdict (d : List (String × Jx))
  | pnone

/-- Python `len` on a response body; `none` models the `TypeError` raised by
`len(None)`.  (`len` of a `str` counts characters, not encoded bytes.) -/
def pyLen : PyObj → Option Nat
  | .pstr s => some s.length
  | .pbytes bs => some bs.length
  | .pdict d => some d.length
  | .pnone => none

/-- `Minimus.response_encode` (minimus.py, lines 218-223): a `str` body is
encoded to one chunk of bytes, anything else is wrapped unchanged in a
one-element list. -/
def response_encode : PyObj → List PyObj
  | .pstr s => [.pbytes (utf8Bytes s)]
  | x => [x]

/-! ## `make_response` and the dispatcher -/

/-- The `headers` parameter of `make_response`: omitted, a bare content-type
string, or a full header list. -/
inductive MRHeaders where
  | noneH
  | strH (s : String)
  | listH (hs : List (String × String))
  deriving DecidableEq

/-- The relevant slice of Python's `http.client.responses` reason-phrase
table (any code outside it maps to `UNKNOWN`, as in `make_response`). -/
def http_responses (code : Int) : String :=
  if code = 100 then "Continue"
  else if code = 200 then "OK"
  else if code = 201 then "Created"
  else if code = 204 then "No Content"
  else if code = 301 then "Moved Permanently"
  else if code = 302 then "Found"
  else if code = 303 then "See Other"
  else if code = 304 then "Not Modified"
  else if code = 400 then "Bad Request"
  else if code = 401 then "Unauthorized"
  else if code = 403 then "Forbidden"
  else if code = 404 then "Not Found"
  else if code = 405 then "Method Not Allowed"
  else if code = 500 then "Internal Server Error"
  else if code = 503 then "Service Unavailable"
  else "UNKNOWN"

/-- `Minimus.make_response` (minimus.py, lines 234-255). -/
def make_response (charset : String) (status_code : Int) (headers : MRHeaders) :
    String × List (String × String) :=
  let rstr := http_responses status_code
  let status_str := toString status_code ++ " " ++ rstr
  match headers with
  | .noneH => (status_str, [("Content-Type", "text/html;charset=" ++ charset)])
  | .strH s => (status_str, [("Content-Type", s)])
  | .listH hs => (status_str, hs)

/-- A WSGI environ, restricted to the string-valued keys the dispatcher
reads (`REQUEST_METHOD`). -/
abbrev EnvT := List (String × String)

/-- The `int(...)`-convertible values a 2-tuple handler return can carry in
its status slot. -/
inductive StatusV where
  | vint (n : Int)
  | vstr (s : String)
  deriving DecidableEq

/-- Digits-only string to number (helper for Python `int(str)`). -/
def digitsVal (cs : List Char) : Option Nat :=
  if cs.isEmpty then none
  else if cs.all Char.isDigit then
    some (cs.foldl (fun a c => a * 10 + (c.toNat - 48)) 0)
  else none

/-- Python `int(s)` on a string: optional surrounding spaces and sign, then
decimal digits; `none` models the raised `ValueError`. -/
def pyParseInt (s : String) : Option Int :=
  let cs := (s.data.dropWhile (· = ' ')).reverse.dropWhile (· = ' ') |>.reverse
  match cs with
  | '-' :: ds => (digitsVal ds).map (fun n => -(n : Int))
  | '+' :: ds => (digitsVal ds).map (fun n => (n : Int))
  | ds => (digitsVal ds).map (fun n => (n : Int))

/-- Python `int(x)` on the status slot of a 2-tuple handler return. -/
def pyIntOf : StatusV → Option Int
  | .vint n => some n
  | .vstr s => pyParseInt s

/-- One of the shapes `render_to_response` inspects in a handler's return
value: a 3-tuple, a 2-tuple, or a bare object (`str`, `dict`, `bytes`,
`None`, ...). -/
inductive HResp where
  | tuple3 (body : PyObj) (status_str : String) (headers : List (String × String))
  | tuple2 (body : PyObj) (status : StatusV)
  | obj (o : PyObj)

/-- An application route handler: `handler(environ, **kwargs)`. -/
abbrev Handler := EnvT → Dict → HResp

/-- One entry of `Minimus.routes`: the tuple
`(route, handler, methods, name)`. -/
structure RouteEntry where
  route : String
  handler : Handler
  methods : List String
  name : Option String

/-- The file system seen by `search_file`/`get_file`: existence plus text and
binary reads (reads are only reached on paths that exist). -/
structure FS where
  pathExists : String → Bool
  readText : String → String
  readBin : String → List Nat

/-- Python `os.path.join(dir, fname)` for the shapes the source produces. -/
def pyPathJoin (dir fname : String) : String :=
  if pyStartsWith fname "/" then fname
  else if dir = "" then fname
  else if pyEndsWith dir "/" then dir ++ fname
  else dir ++ "/" ++ fname

/-- `search_file(filename, *args)` (minimus.py, lines 51-69): try the raw
name, the name with one leading slash stripped, then each directory joined
with the stripped name; first existing path wins. -/
def search_file (fs : FS) (filename : String) (args : List String) : Option String :=
  let fname := if pyStartsWith filename "/" then ⟨filename.data.drop 1⟩ else filename
  let paths := [filename, fname] ++ args.map (fun a => pyPathJoin a fname)
  paths.find? fs.pathExists

/-- `get_file`/`get_text_file` in text mode: the found file's contents as a
`str`, or `None`. -/
def get_file_text (fs : FS) (filename : String) (args : List String) : PyObj :=
  match search_file fs filename args with
  | some real => .pstr (fs.readText real)
  | none => .pnone

/-- `get_file(filename, ftype='binary')`: the found file's contents as
`bytes`, or `None`. -/
def get_file_binary (fs : FS) (filename : String) (args : List String) : PyObj :=
  match search_file fs filename args with
  | some real => .pbytes (fs.readBin real)
  | none => .pnone

/-- The slice of Python's `mimetypes.types_map` relevant to `mimeguess`. -/
def mimetypes_table (ext : String) : Option String :=
  if ext = ".jpg" ∨ ext = ".jpeg" then some "image/jpeg"
  else if ext = ".gif" then some "image/gif"
  else if ext = ".png" then some "image/png"
  else if ext = ".ico" then some "image/vnd.microsoft.icon"
  else if ext = ".css" then some "text/css"
  else if ext = ".js" then some "text/javascript"
  else if ext = ".html" then some "text/html"
  else none

/-- `mimeguess(filename)` (minimus.py, lines 46-49). -/
def mimeguess (filename : String) : String :=
  let ext := "." ++ pyLower ((pySplit '.' filename).getLastD "")
  (mimetypes_table ext).getD "text/html"

/-- `ext_check(pathname, ext_list)` (minimus.py, lines 175-180). -/
def ext_check (pathname : String) (ext_list : List String) : Bool :=
  ext_list.any (fun ext => pyEndsWith (pyLower pathname) ext)

/-- The fields of a `Minimus` application instance that the dispatcher
reads.  `not_found_html` holds the result of the (hookable) 404-body
provider, a constant function of no arguments. -/
structure App where
  charset : String
  app_dir : String
  static_dir : String
  template_dir : String
  routes : Option (List RouteEntry)
  not_found_html : String

/-- The text of `Minimus.logo()` (minimus.py, lines 491-506). -/
def logo_text : String :=
  "\n  __  __ _       _\n |  \\/  (_)     (_)\n | \\  / |_ _ __  _ _ __ ___  _   _ ___\n | |\\/| | | \x27_ \\| | \x27_ \x60 _ \\| | | / __|\n | |  | | | | | | | | | | | | |_| \\__ \\\n |_|  |_|_|_| |_|_|_| |_| |_|\\__,_|___/\n------------------------------------------\n A Minimal Python Framework\n (C) 2021 Jeff et. al.\n -----------------------------------------\n"

/-- The canonical response triple `(body-chunks, status string, headers)`
returned by `render_to_response` to the WSGI layer. -/
structure Triple where
  body : List PyObj
  status_str : String
  headers : List (String × String)

/-- The shared tail of every non-image return in `render_to_response`:
`headers.append(('Content-Length', str(len(response_body))))` followed by
`return self.response_encode(response_body), status_str, headers`.  `none`
models `len` raising on a `None` body. -/
def finishResponse (body : PyObj) (status_str : String)
    (headers : List (String × String)) : Option Triple :=
  (pyLen body).map (fun n =>
    ⟨response_encode body, status_str, headers ++ [("Content-Length", toString n)]⟩)

/-- The `REQUEST_METHOD in methods` test of the dispatcher (`None` is in no
method list). -/
def methodAllowed (environ : EnvT) (methods : List String) : Bool :=
  match dictGet environ "REQUEST_METHOD" with
  | some m => methods.contains m
  | none => false

/-- The diagnostic body for a handler return that is neither a tuple nor a
`str` (minimus.py, line 469). -/
def incompatibleBody (path_info : String) : String :=
  "<h1>" ++ path_info ++ " produced incompatible response.</h1>\n<p>None type returned</p>"

/-- The static-file branch of `render_to_response` (minimus.py, lines
401-438). -/
def staticResponse (app : App) (fs : FS) (path_info : String) : Option Triple :=
  match search_file fs path_info [app.app_dir, app.static_dir, app.template_dir] with
  | some _ =>
    if pyEndsWith path_info ".css" then
      let sh := make_response app.charset 200 (.strH "text/css")
      finishResponse (get_file_text fs path_info []) sh.1 sh.2
    else if pyEndsWith path_info ".js" then
      let sh := make_response app.charset 200 (.strH "text/javascript")
      finishResponse (get_file_text fs path_info []) sh.1 sh.2
    else if ext_check path_info ["jpg", "jpeg", "gif", "png", "ico"] then
      let body := get_file_binary fs path_info []
      let headers := [("Content-Type", mimeguess path_info),
                      ("Cache-Control", "public, max-age=43200")]
      (pyLen body).map (fun n =>
        ⟨[body], "200 OK", headers ++ [("Content-Length", toString n)]⟩)
    else
      let sh := make_response app.charset 200 .noneH
      finishResponse (get_file_text fs path_info []) sh.1 sh.2
  | none =>
    let sh := make_response app.charset 404 .noneH
    finishResponse (.pstr app.not_found_html) sh.1 sh.2

/-- The route loop of `render_to_response` (minimus.py, lines 441-485),
including the trailing no-match 404. -/
def dispatchRoutes (app : App) (environ : EnvT) (path_info : String) :
    List RouteEntry → Option Triple
  | [] =>
    let sh := make_response app.charset 404 .noneH
    finishResponse (.pstr app.not_found_html) sh.1 sh.2
  | e :: rest =>
    match route_match e.route path_info with
    | none => none
    | some (matched, kwargs) =>
      if matched then
        if methodAllowed environ e.methods then
          match e.handler environ kwargs with
          | .tuple3 body status_str headers =>
            finishResponse body status_str headers
          | .tuple2 body status =>
            match pyIntOf status with
            | none => none
            | some code =>
              let sh := make_response app.charset code .noneH
              finishResponse body sh.1 sh.2
          | .obj o =>
            match o with
            | .pstr s =>
              let sh := make_response app.charset 200 .noneH
              finishResponse (.pstr s) sh.1 sh.2
            | _ =>
              let sh := make_response app.charset 400 .noneH
              finishResponse (.pstr (incompatibleBody path_info)) sh.1 sh.2
        else
          let sh := make_response app.charset 405 .noneH
          finishResponse (.pstr "<h1>405 Method not allowed</h1>") sh.1 sh.2
      else
        dispatchRoutes app environ path_info rest

/-- The empty-route-table logo page of `render_to_response` (minimus.py,
lines 394-399). -/
def logoResponse (app : App) : Option Triple :=
  let sh := make_response app.charset 200 .noneH
  finishResponse (.pstr ("<pre>" ++ logo_text ++ "</pre>")) sh.1 sh.2

/-- `Minimus.render_to_response(path_info)` (minimus.py, lines 388-485):
the per-request dispatcher.  `none` models an uncaught exception escaping
the dispatcher. -/
def render_to_response (app : App) (fs : FS) (environ : EnvT)
    (path_info : String) : Option Triple :=
  match app.routes with
  | none => logoResponse app
  | some [] => logoResponse app
  | some routes =>
    if pyContains app.static_dir path_info then
      staticResponse app fs path_info
    else
      dispatchRoutes app environ path_info routes

/-- `Minimus.jsonify(datadict)` (minimus.py, lines 520-525): the 3-tuple a
handler can return to produce a JSON response. -/
def jsonify (charset : String) (datadict : List (String × Jx)) :
    String × String × List (String × String) :=
  let response_body := jxDump (.jobj datadict)
  (response_body, "200 OK",
    [("Content-Type", "application/json;charset=" ++ charset),
     ("Content-Length", toString response_body.length)])

/-! ## `add_route` (minimus.py, lines 299-320) -/

/-- The `methods` argument of `add_route` as a Python value: omitted
(`None`), a list, a set, or a string.  Only a list passes the
`isinstance(methods, list)` check. -/
inductive MethodsParam where
  | nonePm
  | pylist (ms : List String)
  | pyset (ms : List String)
  | pystrPm (s : String)

/-- Python `r == route` where `r` is a route 4-tuple and `route` a `str`:
equality between a tuple and a string is always `False` in Python, whatever
their contents.  This is the duplicate-suppression comparison of
`add_route`. -/
def pyEqTupleStr (_ : RouteEntry) (_ : String) : Bool :=
  false

/-- `Minimus.add_route(route, handler, methods, name)`: `.error` models the
raised `ValueError`; otherwise the possibly-extended route table is
returned. -/
def add_route (routes : Option (List RouteEntry)) (route : String)
    (handler : Handler) (methods : MethodsParam) (name : Option String) :
    Except String (Option (List RouteEntry)) :=
  let methods := match methods with
    | .nonePm => MethodsParam.pylist ["GET", "POST"]
    | m => m
  match methods with
  | .pylist ms =>
    let rs := routes.getD []
    if rs.any (fun r => pyEqTupleStr r route) then
      .ok (some rs)
    else
      .ok (some (rs ++ [⟨route, handler, ms, name⟩]))
  | _ => .error "Minimus add_route route=\x7b\x7d methods must be a list type"

/-! ## Cookie-value obfuscation: `encode`/`decode` (minimus.py, lines 920-941)

`base64.urlsafe_b64encode`/`..._b64decode` are modelled on byte lists; the
decoder is the lenient stdlib one, which silently discards characters outside
the base64 alphabet (that is what Python's `binascii` does without
`validate=True`). -/

/-- The urlsafe base64 alphabet. -/
def b64alpha : List Char :=
  "ABCDEFGHIJKLMNOPQRSTUVWXYZabcdefghijklmnopqrstuvwxyz0123456789-_".data

/-- The character for a 6-bit value. -/
def b64char (n : Nat) : Char :=
  b64alpha.getD n 'A'

/-- The 6-bit value of an alphabet character (`none` for every other
character, including padding). -/
def b64val (c : Char) : Option Nat :=
  b64alpha.findIdx? (· == c)

/-- Standard base64 encoding of a byte list, with `=` padding. -/
def b64encode : List Nat → List Char
  | [] => []
  | [a] => [b64char (a / 4), b64char (a % 4 * 16), '=', '=']
  | [a, b] => [b64char (a / 4), b64char (a % 4 * 16 + b / 16), b64char (b % 16 * 4), '=']
  | a :: b :: c :: rest =>
    b64char (a / 4) :: b64char (a % 4 * 16 + b / 16) ::
      b64char (b % 16 * 4 + c / 64) :: b64char (c % 64) :: b64encode rest

/-- Quad-wise base64 decoding of a list of 6-bit values (a trailing group of
2 or 3 values yields 1 or 2 bytes, as with `=` padding). -/
def b64decodeQuads : List Nat → List Nat
  | a :: b :: c :: d :: rest =>
    (a * 4 + b / 16) :: (b % 16 * 16 + c / 4) :: (c % 4 * 64 + d) :: b64decodeQuads rest
  | [a, b] => [a * 4 + b / 16]
  | [a, b, c] => [a * 4 + b / 16, b % 16 * 16 + c / 4]
  | _ => []

/-- `base64.urlsafe_b64decode` in its default lenient mode: characters
outside the alphabet (including `=` and the stray quotes of the hardcoded
input below) are discarded before decoding. -/
def lenient_b64decode (cs : List Char) : List Nat :=
  b64decodeQuads (cs.filterMap b64val)

/-- Python `l.rstrip(x)` on a character list. -/
def rstripEq (cs : List Char) (x : Char) : List Char :=
  (cs.reverse.dropWhile (· == x)).reverse

/-- `encode(key, string)` (minimus.py, lines 920-928): add the repeating key
to the code points, `latin`-encode, urlsafe-base64, strip `=` padding.
`none` models the exceptions the Python code can raise: `ZeroDivisionError`
on an empty key (from `i % len(key)`) and `UnicodeEncodeError` when a
shifted code point exceeds 255 (from `.encode('latin')`). -/
def encode (key string : String) : Option (List Char) :=
  if string.length ≠ 0 ∧ key.length = 0 then none
  else
    let vals := (List.range string.length).map (fun i =>
      (string.data.getD i 'A').toNat + (key.data.getD (i % key.length) 'A').toNat % 256)
    if vals.all (· < 256) then some (rstripEq (b64encode vals) '=')
    else none

/-- `decode(key, string)` (minimus.py, lines 930-941).  The source OVERWRITES
its `string` argument with the hardcoded bytes `b"b's9LHug'"` (a debugging
leftover), so the argument is ignored; the hardcoded bytes plus `b'==='` are
then base64-decoded leniently, `latin`-decoded, and the repeating key is
subtracted modulo 256. -/
def decode (key : String) (_string : List Char) : Option String :=
  let string := lenient_b64decode ("b\x27s9LHug\x27===".data)
  let chars := string.map Char.ofNat
  if chars.length ≠ 0 ∧ key.length = 0 then none
  else
    some ⟨(List.range chars.length).map (fun i =>
      Char.ofNat (((chars.getD i 'A').toNat + 256 -
        (key.data.getD (i % key.length) 'A').toNat) % 256))⟩

/-! ## Concrete instances used by the witnesses and counterexamples -/

/-- A handler returning the bare string `"hi"`. -/
def hStr : Handler := fun _ _ => .obj (.pstr "hi")

/-- A handler returning a mapping (a Python `dict`). -/
def hDict : Handler := fun _ _ => .obj (.pdict [("a", .jnum 1)])

/-- A handler returning a full 3-tuple whose caller-supplied headers already
contain `Content-Type` and `Content-Length` entries. -/
def hTriple : Handler := fun _ _ =>
  .tuple3 (.pstr "hi") "200 OK"
    [("Content-Type", "text/plain"), ("Content-Length", "999")]

/-- A handler returning a 2-tuple `("err", 404)`. -/
def hErr : Handler := fun _ _ => .tuple2 (.pstr "err") (.vint 404)

/-- An empty file system (no static file exists). -/
def fs0 : FS := ⟨fun _ => false, fun _ => "", fun _ => []⟩

/-- A `Minimus` application with the constructor's default directories and
charset and the given route table. -/
def mkApp (routes : List RouteEntry) : App :=
  ⟨"UTF-8", "", "static", "templates", some routes, "<h1>404 Not Found</h1>"⟩

/-- A WSGI environ for a GET request. -/
def env0 : EnvT := [("REQUEST_METHOD", "GET")]

/-! ## The pattern grammar used to state the matcher theorems -/

/-- A route-pattern segment: a literal, or a `<name>` variable. -/
inductive Seg where
  | lit (s : String)
  | var (n : String)

/-- Render a segment the way it appears in the pattern string. -/
def renderSeg : Seg → String
  | .lit s => s
  | .var n => "<" ++ n ++ ">"

/-- The variable names of a pattern, in order of occurrence. -/
def segVars : List Seg → List String
  | [] => []
  | .lit _ :: rest => segVars rest
  | .var n :: rest => n :: segVars rest

/-- Well-formedness of a segment: literals contain no `<` and no `/`;
variable names contain no `>`, `<` or `/` and do not contain either greedy
marker (`:path` of minimus.py, `path:` of minimus.0.0.3.2.py). -/
def segOk : Seg → Bool
  | .lit s => !s.data.contains '<' && !s.data.contains '/'
  | .var n => !n.data.contains '>' && !n.data.contains '<' && !n.data.contains '/' &&
      !pyContains ":path" n && !pyContains "path:" n

/-- The path segment a pattern segment produces under a variable
assignment. -/
def segValue (vars : Dict) : Seg → String
  | .lit s => s
  | .var n => (dictGet vars n).getD ""


/-- The `pathval` string the greedy branch builds, segment by segment. -/
def slashConcat : List String → String
  | [] => ""
  | p :: t => ("/" ++ p) ++ slashConcat t


/-- A segment the matcher treats as malformed: it contains `<` and the first
`>` is at or before the first `<` (including absent, `find = -1`). -/
def malformedSeg (rp : String) : Bool :=
  pyContainsChar '<' rp && decide (pyFind rp '>' ≤ pyFind rp '<')

/-- The conditions under which a handler's return value passes through the
dispatcher without raising: bodies must support `len` (not be `None`), and
a 2-tuple status must be `int(...)`-convertible. -/
def handlerOk : HResp → Prop
  | .tuple3 body _ _ => pyLen body ≠ none
  | .tuple2 body status => pyLen body ≠ none ∧ pyIntOf status ≠ none
  | .obj _ => True

/-- Discriminator for the 3-tuple handler-return shape. -/
def isTuple3 : HResp → Bool
  | .tuple3 _ _ _ => true
  | _ => false


/-! ## Closed evaluation theorems: the claim-falsifying and bug-exhibiting
instances -/

/-- C1. `add_route` registers a duplicate pattern instead of ignoring it:
the duplicate check compares the stored route 4-tuple `r` with the pattern
string (`r == route`), which is always `False` in Python, so a second
registration of `/x` leaves TWO entries for that pattern. -/
theorem C1_add_route_duplicate_registered (h1 h2 : Handler) :
    add_route none "/x" h1 .nonePm none =
      .ok (some [⟨"/x", h1, ["GET", "POST"], none⟩]) ∧
    add_route (some [⟨"/x", h1, ["GET", "POST"], none⟩]) "/x" h2 .nonePm none =
      .ok (some [⟨"/x", h1, ["GET", "POST"], none⟩, ⟨"/x", h2, ["GET", "POST"], none⟩]) ∧
    (([⟨"/x", h1, ["GET", "POST"], none⟩, ⟨"/x", h2, ["GET", "POST"], none⟩] :
        List RouteEntry).filter (fun e => e.route == "/x")).length = 2 :=
  ⟨rfl, rfl, rfl⟩

/-- C2 counterexample. In `minimus.py` the greedy marker is `:path`, not
`path:`, so the claimed `<path:name>` form does not trigger greedy matching:
`route_match('/<path:p>', '/a/b/c')` fails the arity check and returns
`(False, {})`, not `(True, {"p": "a/b/c"})`. -/
theorem C2_minimus_path_syntax_fails :
    route_match "/<path:p>" "/a/b/c" = some (false, []) ∧
    some (false, ([] : Dict)) ≠ some (true, ([("p", "a/b/c")] : Dict)) :=
  ⟨rfl, by decide⟩

/-- C3 counterexample. A handler returning a `dict` is neither a tuple nor a
`str`, so the dispatcher answers `400 Bad Request` with the
incompatible-response diagnostic, not `200` with a JSON body. -/
theorem C3_dict_handler_gets_400 :
    (render_to_response (mkApp [⟨"/d", hDict, ["GET"], none⟩]) fs0 env0 "/d").map
      Triple.status_str = some "400 Bad Request" ∧
    ("400 Bad Request" : String) ≠ "200 OK" :=
  ⟨rfl, by decide⟩

/-- C4 counterexample. For a 3-tuple handler return the caller-supplied
headers are used verbatim and `Content-Length` is appended on top, so a
caller-supplied `Content-Length: 999` survives next to the computed one: the
emitted triple carries TWO `Content-Length` headers. -/
theorem C4_duplicate_content_length :
    render_to_response (mkApp [⟨"/x", hTriple, ["GET"], none⟩]) fs0 env0 "/x" =
      some ⟨[.pbytes (utf8Bytes "hi")], "200 OK",
        [("Content-Type", "text/plain"), ("Content-Length", "999"),
         ("Content-Length", "2")]⟩ ∧
    ([("Content-Type", "text/plain"), ("Content-Length", "999"),
      ("Content-Length", "2")] : List (String × String)).countP
        (fun h => h.1 == "Content-Length") = 2 :=
  ⟨rfl, by decide⟩

/-- C5 counterexample. A greedy-mode pattern with a non-greedy variable
segment beyond the end of the path makes `route_match` index past
`pparts` (`IndexError`), and the exception escapes the dispatcher: the
request `/a` against route `/a/<p>/<q:path>` produces no response triple at
all. -/
theorem C5_greedy_index_error :
    render_to_response (mkApp [⟨"/a/<p>/<q:path>", hStr, ["GET"], none⟩]) fs0 env0 "/a" =
      none :=
  rfl

/-- C6 counterexample. A variable value containing `/` breaks the round
trip: `encode` happily splices it in, but the resulting path has more
segments than the pattern, so `match` fails the arity check. -/
theorem C6_slash_value_breaks_roundtrip :
    route_encode "/<a>" [("a", "x/y")] = .ok "/x/y" ∧
    route_match "/<a>" "/x/y" = some (false, []) ∧
    some (false, ([] : Dict)) ≠ some (true, ([("a", "x/y")] : Dict)) :=
  ⟨rfl, rfl, by decide⟩

/-- C7 counterexample. On a malformed segment `route_match` returns `False`
together with the variables bound so far, not an empty mapping: the
`<a>` segment before the malformed `x<` has already bound `a`. -/
theorem C7_partial_bindings :
    route_match "/<a>/x<" "/p/q" = some (false, [("a", "p")]) ∧
    ([("a", "p")] : Dict) ≠ [] :=
  ⟨rfl, by decide⟩

/-- C8 counterexample. With `methods` omitted, `add_route` registers
`['GET', 'POST']`, not `{"GET"}`. -/
theorem C8_default_methods_get_post :
    add_route none "/x" hStr .nonePm none =
      .ok (some [⟨"/x", hStr, ["GET", "POST"], none⟩]) ∧
    (["GET", "POST"] : List String) ≠ ["GET"] :=
  ⟨rfl, by decide⟩

/-- C8 amended. `add_route` defaults `methods` to `['GET', 'POST']` and
raises its `ValueError` exactly when the supplied value is not a list
(sets and strings are rejected even when non-empty; an empty list is
accepted). -/
theorem C8_methods_contract :
    (∀ (routes : Option (List RouteEntry)) (p : String) (h : Handler) (nm : Option String),
        add_route routes p h .nonePm nm = add_route routes p h (.pylist ["GET", "POST"]) nm) ∧
    (∀ (routes : Option (List RouteEntry)) (p : String) (h : Handler) (nm : Option String)
        (ms : List String),
        add_route routes p h (.pyset ms) nm =
          .error "Minimus add_route route=\x7b\x7d methods must be a list type") ∧
    (∀ (routes : Option (List RouteEntry)) (p : String) (h : Handler) (nm : Option String)
        (s : String),
        add_route routes p h (.pystrPm s) nm =
          .error "Minimus add_route route=\x7b\x7d methods must be a list type") ∧
    (∀ (p : String) (h : Handler) (nm : Option String),
        add_route none p h (.pylist []) nm = .ok (some [⟨p, h, [], nm⟩])) :=
  ⟨fun _ _ _ _ => rfl, fun _ _ _ _ _ => rfl, fun _ _ _ _ _ => rfl, fun _ _ _ => rfl⟩

/-- C9. The cookie transform does NOT round-trip: `decode` overwrites its
input with the hardcoded bytes `b"b's9LHug'"` (a debugging leftover), so it
decodes successfully but returns a value unrelated to what `encode`
produced — on the repository's own `encode_tests` input the round trip does
not return the original value, and `decode` gives the same answer for any
two inputs. -/
theorem C9_decode_ignores_argument :
    ((encode "IamASecret" "Santa Claus is coming to town!").bind (decode "IamASecret")).isSome =
      true ∧
    ((encode "IamASecret" "Santa Claus is coming to town!").bind (decode "IamASecret")) ≠
      some "Santa Claus is coming to town!" ∧
    decode "IamASecret" "AAAA".data = decode "IamASecret" "ZZZZ".data :=
  ⟨rfl, by decide, rfl⟩

/-! ## Infrastructure lemmas about the string model -/

theorem string_data_append (a b : String) : (a ++ b).data = a.data ++ b.data := by
  cases a; cases b; rfl

theorem string_mk_data (s : String) : (⟨s.data⟩ : String) = s := rfl

theorem isInfixB_iff (n : List Char) : ∀ h : List Char, isInfixB n h = true ↔ n <:+: h := by
  intro h
  induction h with
  | nil =>
    simp only [isInfixB, List.isEmpty_iff, List.infix_nil]
  | cons c cs ih =>
    simp only [isInfixB, Bool.or_eq_true, List.isPrefixOf_iff_prefix, ih,
      List.infix_cons_iff]

theorem joinChars_infix_of_mem (sep : List Char) :
    ∀ (ls : List (List Char)) (l : List Char), l ∈ ls → l <:+: joinChars sep ls := by
  intro ls
  induction ls with
  | nil => intro l hl; cases hl
  | cons a rest ih =>
    intro l hl
    cases rest with
    | nil =>
      cases hl with
      | head => exact List.infix_refl a
      | tail _ h => cases h
    | cons b t =>
      cases hl with
      | head => exact ⟨[], sep ++ joinChars sep (b :: t), by simp [joinChars]⟩
      | tail _ hmem =>
        have h1 : l <:+: joinChars sep (b :: t) := ih l hmem
        have h2 : joinChars sep (b :: t) <:+: joinChars sep (a :: b :: t) :=
          ⟨a ++ sep, [], by simp [joinChars]⟩
        exact h1.trans h2

theorem splitOn_joinChars :
    ∀ ls : List (List Char), (∀ l ∈ ls, '/' ∉ l) → ls ≠ [] →
      (joinChars ['/'] ls).splitOn '/' = ls := by
  intro ls
  induction ls with
  | nil => intro _ h; exact absurd rfl h
  | cons a rest ih =>
    intro hfree _
    cases rest with
    | nil =>
      show a.splitOnP (· == '/') = [a]
      apply List.splitOnP_eq_single
      intro y hy hbeq
      exact hfree a (by simp) (by rw [show y = '/' from by simpa using hbeq] at hy; exact hy)
    | cons b t =>
      have hfa : ∀ y ∈ a, ¬((y == '/') = true) := fun y hy hbeq =>
        hfree a (by simp) (by rw [show y = '/' from by simpa using hbeq] at hy; exact hy)
      show (a ++ ['/'] ++ joinChars ['/'] (b :: t)).splitOnP (· == '/') = a :: b :: t
      rw [List.append_assoc]
      show (a ++ '/' :: joinChars ['/'] (b :: t)).splitOnP (· == '/') = a :: b :: t
      rw [List.splitOnP_first (fun x => x == '/') a hfa '/' (by simp) (joinChars ['/'] (b :: t))]
      exact congrArg (a :: ·) (ih (fun l hl => hfree l (by simp [hl])) (by simp))

theorem pySplit_pyJoin (xs : List String) (hx : ∀ x ∈ xs, '/' ∉ x.data) (hne : xs ≠ []) :
    pySplit '/' (pyJoin "/" xs) = xs := by
  show ((joinChars ['/'] (xs.map String.data)).splitOn '/').map String.mk = xs
  rw [splitOn_joinChars (xs.map String.data)
    (by intro l hl; rcases List.mem_map.1 hl with ⟨x, hxm, rfl⟩; exact hx x hxm)
    (by simpa using hne)]
  rw [List.map_map]
  exact List.map_id'' (fun s => rfl) _

theorem find?_map_overwrite (k v : String) :
    ∀ d : Dict, d.any (fun p => p.1 == k) = true →
      (d.map (fun p => if p.1 == k then (k, v) else p)).find? (fun p => p.1 == k) =
        some (k, v) := by
  intro d
  induction d with
  | nil => intro h; simp at h
  | cons p t ih =>
    intro h
    simp only [List.map_cons]
    by_cases hp : (p.1 == k) = true
    · rw [if_pos hp, List.find?_cons_of_pos _ (by simp)]
    · rw [if_neg hp, List.find?_cons_of_neg _ (by simpa using hp)]
      apply ih
      simp only [List.any_cons, Bool.or_eq_true] at h
      rcases h with h | h
      · exact absurd h hp
      · exact h

theorem dictGet_dictInsert_self (d : Dict) (k v : String) :
    dictGet (dictInsert d k v) k = some v := by
  unfold dictGet dictInsert
  by_cases h : d.any (fun p => p.1 == k)
  · rw [if_pos h, find?_map_overwrite k v d h]
    rfl
  · rw [if_neg h, List.find?_append]
    have hnone : d.find? (fun p => p.1 == k) = none := by
      rw [List.find?_eq_none]
      intro p hp hc
      exact h (List.any_eq_true.2 ⟨p, hp, hc⟩)
    rw [hnone]
    simp only [Option.none_or]
    rw [List.find?_cons_of_pos _ (by simp)]
    rfl

theorem dictInsert_fresh (d : Dict) (k v : String)
    (h : d.any (fun p => p.1 == k) = false) :
    dictInsert d k v = d ++ [(k, v)] := by
  unfold dictInsert
  rw [if_neg (by simp [h])]

theorem dictGet_cons_ne (p : String × String) (d : Dict) (k : String)
    (h : (p.1 == k) = false) : dictGet (p :: d) k = dictGet d k := by
  unfold dictGet
  rw [List.find?_cons_of_neg _ (by simp [h])]

theorem dictGet_cons_self (k v : String) (d : Dict) :
    dictGet ((k, v) :: d) k = some v := by
  unfold dictGet
  rw [List.find?_cons_of_pos _ (by simp)]
  rfl

theorem findIdx?_append_singleton (p : Char → Bool) (x : Char) (hx : p x = true) :
    ∀ (l : List Char) (i : Nat), (∀ y ∈ l, p y = false) →
      (l ++ [x]).findIdx? p i = some (i + l.length) := by
  intro l
  induction l with
  | nil => intro i _; simp [List.findIdx?_cons, hx]
  | cons a t ih =>
    intro i hl
    have ha : p a = false := hl a (by simp)
    rw [List.cons_append, List.findIdx?_cons, if_neg (by simp [ha])]
    rw [ih (i + 1) (fun y hy => hl y (by simp [hy]))]
    simp only [Option.some.injEq, List.length_cons]
    omega

theorem mem_of_contains_false {l : List Char} {c : Char}
    (h : l.contains c = false) : ∀ y ∈ l, (y == c) = false := by
  intro y hy
  by_contra hc
  rw [Bool.not_eq_false] at hc
  have hyc : y = c := by simpa using hc
  subst hyc
  have : l.contains y = true := List.contains_iff_exists_mem_beq.2 ⟨y, hy, by simp⟩
  rw [h] at this
  cases this

/-- The bracket arithmetic of the matcher on a `<name>` variable segment:
where the `<` and `>` are found and what `rp[b1+1:b2]` slices out. -/
theorem varSegment_facts (n : String) (hgt : n.data.contains '>' = false) :
    pyContainsChar '<' (renderSeg (.var n)) = true ∧
    pyFind (renderSeg (.var n)) '<' = 0 ∧
    pyFind (renderSeg (.var n)) '>' = ((n.length + 1 : Nat) : Int) ∧
    pySlice (renderSeg (.var n)) 1 (n.length + 1) = n := by
  have hdata : (renderSeg (.var n)).data = '<' :: (n.data ++ ['>']) := by
    show (("<" ++ n) ++ ">").data = _
    rw [string_data_append, string_data_append]
    simp
  have hlen : n.length = n.data.length := rfl
  refine ⟨?_, ?_, ?_, ?_⟩
  · unfold pyContainsChar
    rw [hdata]
    simp
  · unfold pyFind
    rw [hdata]
    simp [List.findIdx?_cons]
  · unfold pyFind
    rw [hdata]
    have h2 : (('<' :: n.data) ++ ['>']).findIdx? (· == '>') =
        some (0 + ('<' :: n.data).length) := by
      refine findIdx?_append_singleton _ '>' (by simp) _ 0 ?_
      intro y hy
      rcases hy with _ | ⟨_, hy⟩
      · simp
      · exact mem_of_contains_false hgt y hy
    rw [List.cons_append] at h2
    rw [h2]
    simp only [List.length_cons, Nat.zero_add, hlen]
  · unfold pySlice
    rw [hdata]
    have h1 : ('<' :: (n.data ++ ['>'])).take (n.length + 1) = '<' :: n.data := by
      rw [List.take_succ_cons]
      rw [hlen, List.take_left]
    rw [h1]
    rfl

theorem pySlice_isInfix (s : String) (a b : Nat) : (pySlice s a b).data <:+: s.data :=
  ((List.drop_suffix a (s.data.take b)).isInfix).trans ((List.take_prefix b s.data).isInfix)

theorem joinChars_eq_intercalate (sep : List Char) :
    ∀ ls : List (List Char), joinChars sep ls = sep.intercalate ls := by
  intro ls
  induction ls with
  | nil => rfl
  | cons a rest ih =>
    cases rest with
    | nil => simp [joinChars, List.intercalate]
    | cons b t =>
      show a ++ sep ++ joinChars sep (b :: t) = List.intercalate sep (a :: b :: t)
      rw [ih]
      simp [List.intercalate, List.intersperse]

theorem mem_pySplit_isInfix (route rp : String) (h : rp ∈ pySplit '/' route) :
    rp.data <:+: route.data := by
  have hmem : rp.data ∈ route.data.splitOn '/' := by
    unfold pySplit at h
    rcases List.mem_map.1 h with ⟨l, hl, rfl⟩
    exact hl
  have hinf : rp.data <:+: joinChars ['/'] (route.data.splitOn '/') :=
    joinChars_infix_of_mem ['/'] _ _ hmem
  rw [joinChars_eq_intercalate] at hinf
  rw [List.intercalate_splitOn route.data '/'] at hinf
  exact hinf

theorem pyContains_false_of_isInfix {needle : String} {sub sup : List Char}
    (hsub : sub <:+: sup) (h : isInfixB needle.data sup = false) :
    isInfixB needle.data sub = false := by
  cases hb : isInfixB needle.data sub with
  | false => rfl
  | true =>
    have : isInfixB needle.data sup = true :=
      (isInfixB_iff _ _).2 (((isInfixB_iff _ _).1 hb).trans hsub)
    rw [h] at this
    cases this

theorem replaceListAux_no_occur (pat rep : List Char) :
    ∀ (l : List Char) (fuel : Nat), ¬(pat <:+: l) → replaceListAux pat rep fuel l = l := by
  intro l
  induction l with
  | nil => intro fuel _; cases fuel <;> rfl
  | cons c cs ih =>
    intro fuel hno
    cases fuel with
    | zero => rfl
    | succ f =>
      show (if pat.isPrefixOf (c :: cs) && !pat.isEmpty then _ else _) = _
      rw [if_neg ?hneg]
      · exact congrArg (c :: ·) (ih f (fun hinf => hno (hinf.trans
          ⟨[c], [], by simp⟩)))
      case hneg =>
        intro hcond
        have hcond2 : pat.isPrefixOf (c :: cs) = true ∧ (!pat.isEmpty) = true := by
          simpa only [Bool.and_eq_true] using hcond
        exact hno (List.IsPrefix.isInfix (List.isPrefixOf_iff_prefix.1 hcond2.1))

theorem string_append_assoc (x y z : String) : (x ++ y) ++ z = x ++ (y ++ z) := by
  cases x; cases y; cases z
  show String.mk (_ ++ _ ++ _) = String.mk (_ ++ (_ ++ _))
  rw [List.append_assoc]

theorem string_append_nil (s : String) : s ++ "" = s := by
  cases s
  show String.mk (_ ++ []) = _
  rw [List.append_nil]

theorem pyReplace_strip_marker (marker name : String) (hm : marker ≠ "")
    (hname : pyContains marker name = false) :
    pyReplace (marker ++ name) marker "" = name := by
  unfold pyReplace
  cases hmk : marker.data with
  | nil =>
    exact absurd (show marker = "" from congrArg String.mk hmk) hm
  | cons mc mcs =>
    have hdata : (marker ++ name).data = mc :: (mcs ++ name.data) := by
      rw [string_data_append, hmk]
      rfl
    rw [hdata]
    have hfuel : (mc :: (mcs ++ name.data)).length = (mcs ++ name.data).length + 1 := by
      simp
    rw [hfuel]
    show (⟨if (mc :: mcs).isPrefixOf (mc :: (mcs ++ name.data)) && !(mc :: mcs).isEmpty
        then [] ++ replaceListAux (mc :: mcs) [] (mcs ++ name.data).length
          ((mcs ++ name.data).drop ((mc :: mcs).length - 1))
        else mc :: replaceListAux (mc :: mcs) [] (mcs ++ name.data).length
          (mcs ++ name.data)⟩ : String) = name
    rw [if_pos ?hpos]
    case hpos =>
      simp only [Bool.and_eq_true, List.isPrefixOf_iff_prefix]
      exact ⟨⟨name.data, by simp⟩, by simp⟩
    have hdrop : (mcs ++ name.data).drop ((mc :: mcs).length - 1) = name.data := by
      simp only [List.length_cons, Nat.add_sub_cancel]
      exact List.drop_left mcs name.data
    rw [hdrop, List.nil_append]
    rw [replaceListAux_no_occur (mc :: mcs) [] name.data _ ?hno]
    case hno =>
      intro hinf
      have hb : isInfixB (mc :: mcs) name.data = true := (isInfixB_iff _ _).2 hinf
      unfold pyContains at hname
      rw [hmk] at hname
      rw [hname] at hb
      cases hb

theorem foldl_slash (ps : List String) :
    ∀ a : String, ps.foldl (fun acc p => acc ++ ("/" ++ p)) a = a ++ slashConcat ps := by
  induction ps with
  | nil => intro a; exact (string_append_nil a).symm
  | cons p t ih =>
    intro a
    show t.foldl _ (a ++ ("/" ++ p)) = a ++ (("/" ++ p) ++ slashConcat t)
    rw [ih (a ++ ("/" ++ p)), string_append_assoc]

theorem slashConcat_eq_join (ps : List String) (hne : ps ≠ []) :
    slashConcat ps = "/" ++ pyJoin "/" ps := by
  induction ps with
  | nil => exact absurd rfl hne
  | cons p t ih =>
    cases t with
    | nil =>
      show ("/" ++ p) ++ "" = "/" ++ pyJoin "/" [p]
      rw [string_append_nil]
      rfl
    | cons q u =>
      show ("/" ++ p) ++ slashConcat (q :: u) = "/" ++ pyJoin "/" (p :: q :: u)
      rw [ih (by simp)]
      show ("/" ++ p) ++ ("/" ++ ⟨joinChars ['/'] ((q :: u).map String.data)⟩) =
        "/" ++ ⟨p.data ++ ['/'] ++ joinChars ['/'] ((q :: u).map String.data)⟩
      cases p with
      | mk pd =>
        show String.mk (('/' :: pd) ++ ('/' :: joinChars ['/'] ((q :: u).map String.data))) =
          ⟨'/' :: (pd ++ ['/'] ++ joinChars ['/'] ((q :: u).map String.data))⟩
        simp

theorem greedyAccum_eq (pparts : List String) (idx : Nat) :
    greedyAccum pparts idx = slashConcat (pparts.drop idx) := by
  unfold greedyAccum
  rw [foldl_slash]
  rfl

/-- Unpack the conjunction of checks in `segOk` for a variable segment. -/
theorem segOk_var_facts {n : String} (h : segOk (.var n) = true) :
    n.data.contains '>' = false ∧ n.data.contains '<' = false ∧
    n.data.contains '/' = false ∧ pyContains ":path" n = false ∧
    pyContains "path:" n = false := by
  simp only [segOk, Bool.and_eq_true, Bool.not_eq_true'] at h
  exact ⟨h.1.1.1.1, h.1.1.1.2, h.1.1.2, h.1.2, h.2⟩

/-- Unpack `segOk` for a literal segment. -/
theorem segOk_lit_facts {t : String} (h : segOk (.lit t) = true) :
    t.data.contains '<' = false ∧ t.data.contains '/' = false := by
  simp only [segOk, Bool.and_eq_true, Bool.not_eq_true'] at h
  exact h

/-- The fixed-arity walk of `route_match`'s loop over a pattern of literal
and `<name>` segments, against the path segments an assignment produces. -/
theorem matchLoop_fixed (vars : Dict) :
    ∀ (segs : List Seg) (done : List String) (acc : Dict),
      (∀ s ∈ segs, segOk s = true) →
      (∀ n ∈ segVars segs, acc.any (fun p => p.1 == n) = false) →
      (segVars segs).Nodup →
      matchLoop (done ++ segs.map (segValue vars)) (segs.map renderSeg) done.length acc =
        some (true, acc ++ (segVars segs).map (fun n => (n, (dictGet vars n).getD ""))) := by
  intro segs
  induction segs with
  | nil =>
    intro done acc _ _ _
    show some (true, acc) = some (true, acc ++ [])
    rw [List.append_nil]
  | cons s rest ih =>
    intro done acc hok hfresh hnd
    cases s with
    | lit t =>
      have hokt := segOk_lit_facts (hok (.lit t) (by simp))
      have hcc : pyContainsChar '<' (renderSeg (Seg.lit t)) = false := hokt.1
      simp only [List.map_cons, matchLoop]
      rw [if_neg (by rw [hcc]; simp)]
      have hidx : (done ++ segValue vars (Seg.lit t) :: rest.map (segValue vars))[done.length]? =
          some (segValue vars (Seg.lit t)) := by
        rw [List.getElem?_append_right (Nat.le_refl _)]
        simp
      rw [hidx]
      show (if renderSeg (Seg.lit t) ≠ segValue vars (Seg.lit t) then some (false, acc) else
        matchLoop (done ++ segValue vars (Seg.lit t) :: rest.map (segValue vars))
          (rest.map renderSeg) (done.length + 1) acc) = _
      rw [if_neg (fun hne => hne rfl)]
      have h2 := ih (done ++ [segValue vars (Seg.lit t)]) acc
        (fun s hs => hok s (by simp [hs])) hfresh hnd
      rw [List.append_assoc, List.length_append] at h2
      simpa using h2
    | var n =>
      have hokn := segOk_var_facts (hok (.var n) (by simp))
      have vf := varSegment_facts n hokn.1
      simp only [List.map_cons, matchLoop]
      rw [if_pos vf.1, vf.2.1, vf.2.2.1]
      rw [if_neg (by omega)]
      have htn : (0 : Int).toNat + 1 = 1 := rfl
      rw [htn]
      have htn2 : (((n.length + 1 : Nat) : Int)).toNat = n.length + 1 := by simp
      rw [htn2, vf.2.2.2]
      rw [if_neg (by simp [hokn.2.2.2.1])]
      have hidx : (done ++ segValue vars (.var n) :: rest.map (segValue vars))[done.length]? =
          some (segValue vars (.var n)) := by
        rw [List.getElem?_append_right (Nat.le_refl _)]
        simp
      rw [hidx]
      show matchLoop (done ++ segValue vars (Seg.var n) :: rest.map (segValue vars))
          (rest.map renderSeg) (done.length + 1)
          (dictInsert acc n (segValue vars (Seg.var n))) = _
      have hfreshn : acc.any (fun p => p.1 == n) = false := hfresh n (by simp [segVars])
      rw [dictInsert_fresh acc n _ hfreshn]
      have hnotin : n ∉ segVars rest := (List.nodup_cons.1 hnd).1
      have h2 := ih (done ++ [segValue vars (.var n)])
        (acc ++ [(n, segValue vars (.var n))])
        (fun s hs => hok s (by simp [hs]))
        (fun m hm => by
          rw [List.any_append]
          rw [hfresh m (by simp [segVars, hm])]
          have hnm : (n == m) = false := by
            have : n ≠ m := fun he => hnotin (he ▸ hm)
            simpa using this
          simp [hnm])
        ((List.nodup_cons.1 hnd).2)
      rw [List.append_assoc, List.length_append] at h2
      have h3 : matchLoop (done ++ segValue vars (.var n) :: rest.map (segValue vars))
          (rest.map renderSeg) (done.length + 1)
          (acc ++ [(n, segValue vars (.var n))]) =
          some (true, (acc ++ [(n, segValue vars (.var n))]) ++
            (segVars rest).map (fun m => (m, (dictGet vars m).getD ""))) := by
        simpa using h2
      rw [h3, List.append_assoc]
      show _ = some (true, acc ++ (segVars (.var n :: rest)).map
        (fun m => (m, (dictGet vars m).getD "")))
      simp only [segVars, List.map_cons]
      rfl

/-- `route_encode`'s loop over a fixed-arity pattern substitutes each
variable's (non-empty) value and passes literals through. -/
theorem encodeLoop_fixed (vars : Dict) :
    ∀ segs : List Seg,
      (∀ s ∈ segs, segOk s = true) →
      (∀ n ∈ segVars segs, ∃ v, dictGet vars n = some v ∧ v ≠ "") →
      encodeLoop vars (segs.map renderSeg) = .ok (segs.map (segValue vars)) := by
  intro segs
  induction segs with
  | nil => intro _ _; rfl
  | cons s rest ih =>
    intro hok hv
    cases s with
    | lit t =>
      have hokt := segOk_lit_facts (hok (.lit t) (by simp))
      have hcc : pyContainsChar '<' (renderSeg (Seg.lit t)) = false := hokt.1
      simp only [List.map_cons, encodeLoop]
      rw [if_neg (by rw [hcc]; simp)]
      rw [ih (fun s hs => hok s (by simp [hs])) (fun n hn => hv n (by simp [segVars, hn]))]
      rfl
    | var n =>
      have hokn := segOk_var_facts (hok (.var n) (by simp))
      have vf := varSegment_facts n hokn.1
      obtain ⟨v, hvg, hvne⟩ := hv n (by simp [segVars])
      simp only [List.map_cons, encodeLoop]
      rw [if_pos vf.1, vf.2.1, vf.2.2.1]
      rw [if_neg (by omega)]
      have htn : (0 : Int).toNat + 1 = 1 := rfl
      have htn2 : (((n.length + 1 : Nat) : Int)).toNat = n.length + 1 := by simp
      rw [htn, htn2, vf.2.2.2, hvg]
      show (if v ≠ "" then Except.map (fun ns => v :: ns) (encodeLoop vars (rest.map renderSeg))
        else Except.error (EncodeErr.valueError n)) = _
      rw [if_pos hvne]
      rw [ih (fun s hs => hok s (by simp [hs])) (fun m hm => hv m (by simp [segVars, hm]))]
      have hsv : segValue vars (Seg.var n) = v := by
        show (dictGet vars n).getD "" = v
        rw [hvg]
        rfl
      rw [hsv]
      rfl

theorem dictGet_zip_not_mem (names vals : List String) (m : String)
    (h : m ∉ names) : dictGet (names.zip vals) m = none := by
  induction names generalizing vals with
  | nil => unfold dictGet; simp
  | cons n ns ih =>
    cases vals with
    | nil => unfold dictGet; simp
    | cons v vs =>
      have hnm : (n == m) = false := by
        have : n ≠ m := fun he => h (by simp [he])
        simpa using this
      rw [List.zip_cons_cons, dictGet_cons_ne (n, v) _ m (by simpa using hnm)]
      exact ih vs (fun hm => h (by simp [hm]))

/-- Looking each name up in the zipped assignment reproduces the
assignment. -/
theorem zip_map_lookup (names : List String) :
    ∀ vals : List String, names.Nodup → names.length = vals.length →
      names.map (fun n => (n, (dictGet (names.zip vals) n).getD "")) = names.zip vals := by
  induction names with
  | nil => intro vals _ _; rfl
  | cons n ns ih =>
    intro vals hnd hlen
    cases vals with
    | nil => simp at hlen
    | cons v vs =>
      rw [List.zip_cons_cons, List.map_cons]
      have hhead : dictGet ((n, v) :: ns.zip vs) n = some v := dictGet_cons_self n v _
      rw [hhead]
      have htail : ns.map (fun m => (m, (dictGet ((n, v) :: ns.zip vs) m).getD "")) =
          ns.map (fun m => (m, (dictGet (ns.zip vs) m).getD "")) := by
        apply List.map_congr_left
        intro m hm
        have hnm : (n == m) = false := by
          have : n ≠ m := fun he => (List.nodup_cons.1 hnd).1 (he ▸ hm)
          simpa using this
        rw [dictGet_cons_ne (n, v) _ m (by simpa using hnm)]
      rw [htail, ih vs (List.nodup_cons.1 hnd).2 (by simpa using hlen)]
      rfl

/-- Every name of the pattern finds a non-empty, slash-free value in the
zipped assignment. -/
theorem zip_lookup_exists (names : List String) :
    ∀ vals : List String, names.Nodup → names.length = vals.length →
      (∀ v ∈ vals, v ≠ "" ∧ '/' ∉ v.data) →
      ∀ n ∈ names, ∃ v, dictGet (names.zip vals) n = some v ∧ v ≠ "" ∧ '/' ∉ v.data := by
  induction names with
  | nil => intro vals _ _ _ n hn; cases hn
  | cons m ms ih =>
    intro vals hnd hlen hvals n hn
    cases vals with
    | nil => simp at hlen
    | cons v vs =>
      rw [List.zip_cons_cons]
      rcases hn with _ | ⟨_, hn⟩
      · exact ⟨v, dictGet_cons_self _ v _, hvals v (by simp)⟩
      · have hnm : (m == n) = false := by
          have : m ≠ n := fun he => (List.nodup_cons.1 hnd).1 (he ▸ hn)
          simpa using this
        rw [dictGet_cons_ne (m, v) _ n (by simpa using hnm)]
        exact ih vs (List.nodup_cons.1 hnd).2 (by simpa using hlen)
          (fun w hw => hvals w (by simp [hw])) n hn

theorem not_mem_of_contains_false {l : List Char} {c : Char}
    (h : l.contains c = false) : c ∉ l := by
  intro hm
  have hc : l.contains c = true := List.contains_iff_exists_mem_beq.2 ⟨c, hm, by simp⟩
  rw [h] at hc
  cases hc

theorem renderSeg_no_slash {s : Seg} (h : segOk s = true) : '/' ∉ (renderSeg s).data := by
  cases s with
  | lit t => exact not_mem_of_contains_false (segOk_lit_facts h).2
  | var n =>
    have hf := segOk_var_facts h
    have hdata : (renderSeg (.var n)).data = '<' :: (n.data ++ ['>']) := by
      show (("<" ++ n) ++ ">").data = _
      rw [string_data_append, string_data_append]
      simp
    rw [hdata]
    intro hm
    simp only [List.mem_cons, List.mem_append, List.mem_singleton] at hm
    rcases hm with h | h | h
    · exact absurd h (by decide)
    · exact not_mem_of_contains_false hf.2.2.1 h
    · exact absurd h (by decide)

theorem var_mem_segVars {n : String} :
    ∀ segs : List Seg, Seg.var n ∈ segs → n ∈ segVars segs := by
  intro segs
  induction segs with
  | nil => intro h; cases h
  | cons s rest ih =>
    intro h
    rcases h with _ | ⟨_, h⟩
    · simp [segVars]
    · cases s with
      | lit t => simpa [segVars] using ih h
      | var m => simp [segVars, ih h]

/-- C6 amended. Round trip for fixed-arity patterns: for a non-empty pattern
of well-formed literal and `<name>` segments with distinct variable names,
and an assignment giving every variable a non-empty value WITHOUT a slash,
`route_encode` produces the substituted URL and `route_match` maps it back
to exactly that assignment. -/
theorem C6_roundtrip (segs : List Seg) (vals : List String)
    (hne : segs ≠ [])
    (hok : ∀ s ∈ segs, segOk s = true)
    (hnd : (segVars segs).Nodup)
    (hlen : (segVars segs).length = vals.length)
    (hvals : ∀ v ∈ vals, v ≠ "" ∧ '/' ∉ v.data) :
    route_encode (pyJoin "/" (segs.map renderSeg)) ((segVars segs).zip vals) =
      .ok (pyJoin "/" (segs.map (segValue ((segVars segs).zip vals)))) ∧
    route_match (pyJoin "/" (segs.map renderSeg))
        (pyJoin "/" (segs.map (segValue ((segVars segs).zip vals)))) =
      some (true, (segVars segs).zip vals) := by
  have hsplitP : pySplit '/' (pyJoin "/" (segs.map renderSeg)) = segs.map renderSeg :=
    pySplit_pyJoin _ (by
      intro x hx
      rcases List.mem_map.1 hx with ⟨sg, hsg, rfl⟩
      exact renderSeg_no_slash (hok sg hsg)) (by simpa using hne)
  have hex := zip_lookup_exists (segVars segs) vals hnd hlen hvals
  have hvalsf : ∀ x ∈ segs.map (segValue ((segVars segs).zip vals)), '/' ∉ x.data := by
    intro x hx
    rcases List.mem_map.1 hx with ⟨sg, hsg, rfl⟩
    cases sg with
    | lit t => exact not_mem_of_contains_false (segOk_lit_facts (hok _ hsg)).2
    | var n =>
      obtain ⟨v, hg, _, hvf⟩ := hex n (var_mem_segVars segs hsg)
      show '/' ∉ ((dictGet ((segVars segs).zip vals) n).getD "").data
      rw [hg]
      exact hvf
  have hsplitU : pySplit '/' (pyJoin "/" (segs.map (segValue ((segVars segs).zip vals)))) =
      segs.map (segValue ((segVars segs).zip vals)) :=
    pySplit_pyJoin _ hvalsf (by simpa using hne)
  constructor
  · unfold route_encode
    rw [hsplitP]
    rw [encodeLoop_fixed ((segVars segs).zip vals) segs hok
      (fun n hn => (hex n hn).imp (fun v hv => ⟨hv.1, hv.2.1⟩))]
    rfl
  · show (if pyContains ":path" (pyJoin "/" (segs.map renderSeg)) = false ∧
        (pySplit '/' (pyJoin "/" (segs.map renderSeg))).length ≠
          (pySplit '/' (pyJoin "/" (segs.map (segValue ((segVars segs).zip vals))))).length
      then some (false, [])
      else matchLoop (pySplit '/' (pyJoin "/" (segs.map (segValue ((segVars segs).zip vals)))))
        (pySplit '/' (pyJoin "/" (segs.map renderSeg))) 0 []) =
      some (true, (segVars segs).zip vals)
    rw [hsplitP, hsplitU]
    rw [if_neg ?hcond]
    case hcond =>
      rintro ⟨-, hc⟩
      exact hc (by simp)
    have hm := matchLoop_fixed ((segVars segs).zip vals) segs [] []
      hok (fun n _ => rfl) hnd
    rw [zip_map_lookup (segVars segs) vals hnd hlen] at hm
    simpa using hm

/-- Witness for C6 on the spec's own example `/hello/<name>` with
`name=World`. -/
theorem C6_roundtrip_witness :
    route_encode "/hello/<name>" [("name", "World")] = .ok "/hello/World" ∧
    route_match "/hello/<name>" "/hello/World" = some (true, [("name", "World")]) := by
  have h := C6_roundtrip [Seg.lit "", Seg.lit "hello", Seg.var "name"] ["World"]
    (by simp) (by decide) (by decide) (by decide) (by decide)
  exact ⟨h.1, h.2⟩

theorem contains_false_of_not_mem {l : List Char} {c : Char} (h : c ∉ l) :
    l.contains c = false := by
  cases hb : l.contains c with
  | false => rfl
  | true =>
    rcases List.contains_iff_exists_mem_beq.1 hb with ⟨x, hx, hbeq⟩
    exact absurd (by rw [show c = x from by simpa using hbeq]; exact hx) h

theorem strip_slashConcat (ps : List String) :
    (if pyStartsWith (slashConcat ps) "/" then (⟨(slashConcat ps).data.drop 1⟩ : String)
     else slashConcat ps) = pyJoin "/" ps := by
  cases ps with
  | nil =>
    rw [if_neg (by decide)]
    rfl
  | cons p t =>
    rw [slashConcat_eq_join (p :: t) (by simp)]
    rw [if_pos ?hsw]
    case hsw =>
      show pyStartsWith ("/" ++ pyJoin "/" (p :: t)) "/" = true
      unfold pyStartsWith
      rw [string_data_append]
      show (['/'] : List Char).isPrefixOf ('/' :: (pyJoin "/" (p :: t)).data) = true
      rw [List.isPrefixOf_iff_prefix]
      exact ⟨(pyJoin "/" (p :: t)).data, rfl⟩
    show (⟨(("/" ++ pyJoin "/" (p :: t)).data).drop 1⟩ : String) = pyJoin "/" (p :: t)
    rw [string_data_append]
    rfl

/-- The greedy walk of `route_match`'s loop in the 0.0.3.2 variant: literal
and variable segments before the greedy `<path:name>` segment are consumed,
then the rest of the path is captured into `name` (leading slash stripped)
and the match succeeds immediately, whatever trails the greedy segment. -/
theorem v0032_matchLoop_greedy (name : String) (trailing : List String)
    (pathSegs : List String)
    (hgt : name.data.contains '>' = false)
    (hnp : pyContains "path:" name = false) :
    ∀ (pre : List Seg) (idx : Nat) (acc : Dict),
      (∀ s ∈ pre, segOk s = true) →
      idx + pre.length ≤ pathSegs.length →
      (∀ (j : Nat) (t : String), pre[j]? = some (Seg.lit t) → pathSegs[idx + j]? = some t) →
      ∃ kw, V0032.matchLoop pathSegs
          (pre.map renderSeg ++ renderSeg (Seg.var ("path:" ++ name)) :: trailing) idx acc =
        some (true, kw) ∧
        dictGet kw name = some (pyJoin "/" (pathSegs.drop (idx + pre.length))) := by
  intro pre
  induction pre with
  | nil =>
    intro idx acc _ _ _
    have hNgt : ("path:" ++ name).data.contains '>' = false := by
      apply contains_false_of_not_mem
      rw [string_data_append]
      intro hm
      rcases List.mem_append.1 hm with hm | hm
      · simp at hm
      · exact not_mem_of_contains_false hgt hm
    have vf := varSegment_facts ("path:" ++ name) hNgt
    simp only [List.map_nil, List.nil_append, V0032.matchLoop]
    rw [if_pos vf.1, vf.2.1, vf.2.2.1]
    rw [if_neg (by omega)]
    have htn : (0 : Int).toNat + 1 = 1 := rfl
    have htn2 : (((("path:" ++ name).length + 1 : Nat) : Int)).toNat =
        ("path:" ++ name).length + 1 := by omega
    rw [htn, htn2, vf.2.2.2]
    rw [if_pos ?hg]
    case hg =>
      show pyContains "path:" ("path:" ++ name) = true
      unfold pyContains
      refine (isInfixB_iff _ _).2 (List.IsPrefix.isInfix ?_)
      exact ⟨name.data, (string_data_append _ _).symm⟩
    rw [pyReplace_strip_marker "path:" name (by decide) hnp]
    rw [greedyAccum_eq, strip_slashConcat]
    refine ⟨dictInsert acc name (pyJoin "/" (pathSegs.drop idx)), rfl, ?_⟩
    rw [dictGet_dictInsert_self]
    simp
  | cons s rest ih =>
    intro idx acc hok hlen hmatch
    have hidxlt : idx < pathSegs.length := by
      simp only [List.length_cons] at hlen
      omega
    have hrec : ∀ acc2 : Dict,
        ∃ kw, V0032.matchLoop pathSegs
            (rest.map renderSeg ++ renderSeg (Seg.var ("path:" ++ name)) :: trailing)
            (idx + 1) acc2 = some (true, kw) ∧
          dictGet kw name = some (pyJoin "/" (pathSegs.drop (idx + 1 + rest.length))) := by
      intro acc2
      refine ih (idx + 1) acc2 (fun s2 hs2 => hok s2 (by simp [hs2])) ?_ ?_
      · simp only [List.length_cons] at hlen
        omega
      · intro j t hj
        have := hmatch (j + 1) t (by simpa using hj)
        have harith : idx + (j + 1) = idx + 1 + j := by omega
        rw [harith] at this
        exact this
    have harith2 : idx + 1 + rest.length = idx + (s :: rest).length := by
      simp only [List.length_cons]
      omega
    cases s with
    | lit t =>
      have hokt := segOk_lit_facts (hok (.lit t) (by simp))
      have hcc : pyContainsChar '<' (renderSeg (Seg.lit t)) = false := hokt.1
      simp only [List.map_cons, List.cons_append, V0032.matchLoop]
      rw [if_neg (by rw [hcc]; simp)]
      have hidx : pathSegs[idx]? = some t := by
        have := hmatch 0 t (by simp)
        simpa using this
      rw [hidx]
      obtain ⟨kw, hkw, hget⟩ := hrec acc
      refine ⟨kw, ?_, by rw [hget, harith2]⟩
      show (if renderSeg (Seg.lit t) ≠ t then some (false, acc) else
        V0032.matchLoop pathSegs
          (rest.map renderSeg ++ renderSeg (Seg.var ("path:" ++ name)) :: trailing)
          (idx + 1) acc) = some (true, kw)
      rw [if_neg (fun hne => hne rfl)]
      exact hkw
    | var n =>
      have hokn := segOk_var_facts (hok (.var n) (by simp))
      have vf := varSegment_facts n hokn.1
      simp only [List.map_cons, List.cons_append, V0032.matchLoop]
      rw [if_pos vf.1, vf.2.1, vf.2.2.1]
      rw [if_neg (by omega)]
      have htn : (0 : Int).toNat + 1 = 1 := rfl
      have htn2 : (((n.length + 1 : Nat) : Int)).toNat = n.length + 1 := by omega
      rw [htn, htn2, vf.2.2.2]
      rw [if_neg (by simp [hokn.2.2.2.2])]
      have hidx : ∃ pv, pathSegs[idx]? = some pv := by
        rw [List.getElem?_eq_getElem hidxlt]
        exact ⟨_, rfl⟩
      obtain ⟨pv, hpv⟩ := hidx
      rw [hpv]
      obtain ⟨kw, hkw, hget⟩ := hrec (dictInsert acc n pv)
      refine ⟨kw, ?_, by rw [hget, harith2]⟩
      show V0032.matchLoop pathSegs
          (rest.map renderSeg ++ renderSeg (Seg.var ("path:" ++ name)) :: trailing)
          (idx + 1) (dictInsert acc n pv) = some (true, kw)
      exact hkw

/-- C2 amended. Greedy capture, as the claim states it, holds of
`minimus.0.0.3.2.py` (trigger `path:`, segment form `<path:name>`, leading
slash stripped): whenever the segments before the greedy one match, the
match succeeds immediately — whatever trails the greedy segment — binding
`name` to the rest of the path rejoined with `/`.  In `minimus.py` the
trigger is the reversed literal `:path` (form `<name:path>`) and the
captured remainder KEEPS its leading slash. -/
theorem C2_greedy_capture :
    (∀ (pre : List Seg) (name : String) (trailing pathSegs : List String),
      name.data.contains '>' = false →
      name.data.contains '/' = false →
      pyContains "path:" name = false →
      (∀ s ∈ pre, segOk s = true) →
      (∀ t ∈ trailing, '/' ∉ t.data) →
      (∀ x ∈ pathSegs, '/' ∉ x.data) →
      pathSegs ≠ [] →
      pre.length ≤ pathSegs.length →
      (∀ (j : Nat) (t : String), pre[j]? = some (Seg.lit t) → pathSegs[j]? = some t) →
      ∃ kw, V0032.route_match
          (pyJoin "/" (pre.map renderSeg ++ renderSeg (Seg.var ("path:" ++ name)) :: trailing))
          (pyJoin "/" pathSegs) = some (true, kw) ∧
        dictGet kw name = some (pyJoin "/" (pathSegs.drop pre.length))) ∧
    V0032.route_match "/<path:p>" "/a/b/c" = some (true, [("p", "a/b/c")]) ∧
    route_match "/<p:path>" "/a/b/c" = some (true, [("p", "/a/b/c")]) := by
  refine ⟨?_, rfl, rfl⟩
  intro pre name trailing pathSegs hgt hns hnp hok htrail hpath hpne hplen hmatch
  have hgdata : (renderSeg (Seg.var ("path:" ++ name))).data =
      '<' :: (("path:" ++ name).data ++ ['>']) := by
    show (("<" ++ ("path:" ++ name)) ++ ">").data = _
    rw [string_data_append, string_data_append]
    simp
  have hgfree : '/' ∉ (renderSeg (Seg.var ("path:" ++ name))).data := by
    rw [hgdata]
    intro hm
    simp only [List.mem_cons, List.mem_append, List.mem_singleton] at hm
    rcases hm with h | h | h
    · exact absurd h (by decide)
    · rw [string_data_append] at h
      rcases List.mem_append.1 h with h | h
      · simp at h
      · exact not_mem_of_contains_false hns h
    · exact absurd h (by decide)
  have hsplitP : pySplit '/'
      (pyJoin "/" (pre.map renderSeg ++ renderSeg (Seg.var ("path:" ++ name)) :: trailing)) =
      pre.map renderSeg ++ renderSeg (Seg.var ("path:" ++ name)) :: trailing := by
    apply pySplit_pyJoin
    · intro x hx
      rcases List.mem_append.1 hx with hx | hx
      · rcases List.mem_map.1 hx with ⟨sg, hsg, rfl⟩
        exact renderSeg_no_slash (hok sg hsg)
      · rcases hx with _ | ⟨_, hx⟩
        · exact hgfree
        · exact htrail x hx
    · simp
  have hsplitQ : pySplit '/' (pyJoin "/" pathSegs) = pathSegs :=
    pySplit_pyJoin pathSegs hpath hpne
  have hcont : pyContains "path:"
      (pyJoin "/" (pre.map renderSeg ++ renderSeg (Seg.var ("path:" ++ name)) :: trailing)) =
      true := by
    unfold pyContains
    apply (isInfixB_iff _ _).2
    have h1 : ("path:" : String).data <:+: (renderSeg (Seg.var ("path:" ++ name))).data := by
      rw [hgdata, string_data_append]
      exact ⟨['<'], name.data ++ ['>'], by simp⟩
    have h2 : (renderSeg (Seg.var ("path:" ++ name))).data <:+:
        (pyJoin "/" (pre.map renderSeg ++ renderSeg (Seg.var ("path:" ++ name)) :: trailing)).data := by
      apply joinChars_infix_of_mem
      exact List.mem_map_of_mem String.data (by simp)
    exact h1.trans h2
  obtain ⟨kw, hkw, hget⟩ := v0032_matchLoop_greedy name trailing pathSegs hgt hnp pre 0 []
    hok (by simpa using hplen) (by intro j t hj; simpa using hmatch j t hj)
  refine ⟨kw, ?_, by simpa using hget⟩
  show (if pyContains "path:"
        (pyJoin "/" (pre.map renderSeg ++ renderSeg (Seg.var ("path:" ++ name)) :: trailing)) =
          false ∧
      (pySplit '/'
        (pyJoin "/" (pre.map renderSeg ++ renderSeg (Seg.var ("path:" ++ name)) :: trailing))).length ≠
        (pySplit '/' (pyJoin "/" pathSegs)).length
    then some (false, [])
    else V0032.matchLoop (pySplit '/' (pyJoin "/" pathSegs))
      (pySplit '/'
        (pyJoin "/" (pre.map renderSeg ++ renderSeg (Seg.var ("path:" ++ name)) :: trailing)))
      0 []) = some (true, kw)
  rw [if_neg ?hc, hsplitP, hsplitQ]
  · exact hkw
  case hc =>
    rintro ⟨hf, -⟩
    rw [hcont] at hf
    cases hf

/-- Witness for C2 on the spec's example `/<path:p>` against `/a/b/c`,
through the general greedy theorem. -/
theorem C2_greedy_capture_witness :
    ∃ kw, V0032.route_match "/<path:p>" "/a/b/c" = some (true, kw) ∧
      dictGet kw "p" = some "a/b/c" := by
  have h := C2_greedy_capture.1 [Seg.lit ""] "p" [] ["", "a", "b", "c"]
    (by decide) (by decide) (by decide) (by decide)
    (by intro t ht; cases ht) (by decide) (by decide) (by decide)
    (by
      intro j t hj
      cases j with
      | zero =>
        simp only [List.getElem?_cons_zero, Option.some.injEq, Seg.lit.injEq] at hj
        simp [hj]
      | succ k => simp at hj)
  exact h

theorem matchLoop_malformed (pparts : List String) :
    ∀ (rsegs : List String) (idx : Nat) (acc : Dict),
      (∀ rp ∈ rsegs, pyContains ":path" rp = false) →
      idx + rsegs.length ≤ pparts.length →
      (∃ rp ∈ rsegs, malformedSeg rp = true) →
      ∃ kw, matchLoop pparts rsegs idx acc = some (false, kw) := by
  intro rsegs
  induction rsegs with
  | nil =>
    intro idx acc _ _ hmal
    rcases hmal with ⟨rp, hm, _⟩
    cases hm
  | cons rp rest ih =>
    intro idx acc hsub hlen hmal
    have hidxlt : idx < pparts.length := by
      simp only [List.length_cons] at hlen
      omega
    have hidx : ∃ pv, pparts[idx]? = some pv := by
      rw [List.getElem?_eq_getElem hidxlt]
      exact ⟨_, rfl⟩
    obtain ⟨pv, hpv⟩ := hidx
    have hlen2 : idx + 1 + rest.length ≤ pparts.length := by
      simp only [List.length_cons] at hlen
      omega
    have hsub2 : ∀ rq ∈ rest, pyContains ":path" rq = false :=
      fun rq hq => hsub rq (by simp [hq])
    simp only [matchLoop]
    by_cases hlt : pyContainsChar '<' rp = true
    · rw [if_pos hlt]
      by_cases hb : pyFind rp '>' ≤ pyFind rp '<'
      · rw [if_pos hb]
        exact ⟨acc, rfl⟩
      · rw [if_neg hb]
        have hvn : pyContains ":path" (pySlice rp ((pyFind rp '<').toNat + 1)
            (pyFind rp '>').toNat) = false :=
          pyContains_false_of_isInfix (pySlice_isInfix rp _ _) (hsub rp (by simp))
        rw [if_neg (by simp [hvn])]
        rw [hpv]
        have hmal2 : ∃ rq ∈ rest, malformedSeg rq = true := by
          rcases hmal with ⟨rq, hq, hqm⟩
          rcases hq with _ | ⟨_, hq⟩
          · unfold malformedSeg at hqm
            rw [Bool.and_eq_true] at hqm
            exact absurd (of_decide_eq_true hqm.2) hb
          · exact ⟨rq, hq, hqm⟩
        exact ih (idx + 1) _ hsub2 hlen2 hmal2
    · rw [if_neg hlt]
      rw [hpv]
      have hmal2 : ∃ rq ∈ rest, malformedSeg rq = true := by
        rcases hmal with ⟨rq, hq, hqm⟩
        rcases hq with _ | ⟨_, hq⟩
        · unfold malformedSeg at hqm
          rw [Bool.and_eq_true] at hqm
          exact absurd hqm.1 hlt
        · exact ⟨rq, hq, hqm⟩
      by_cases heq : rp = pv
      · show ∃ kw, (if rp ≠ pv then some (false, acc)
          else matchLoop pparts rest (idx + 1) acc) = some (false, kw)
        rw [if_neg (fun hne => hne heq)]
        exact ih (idx + 1) acc hsub2 hlen2 hmal2
      · show ∃ kw, (if rp ≠ pv then some (false, acc)
          else matchLoop pparts rest (idx + 1) acc) = some (false, kw)
        rw [if_pos heq]
        exact ⟨acc, rfl⟩

/-- C7 amended. For a non-greedy pattern (no `:path` marker) containing a
malformed segment, `route_match` returns `False` and does not throw — but
the variables mapping it returns alongside may carry bindings from variable
segments matched before the malformed one (it is empty only when nothing
bound earlier). -/
theorem C7_malformed_returns_false (route path : String)
    (hng : pyContains ":path" route = false)
    (hmal : ∃ rp ∈ pySplit '/' route, malformedSeg rp = true) :
    ∃ kw, route_match route path = some (false, kw) := by
  by_cases hlen : (pySplit '/' route).length = (pySplit '/' path).length
  · show ∃ kw, (if pyContains ":path" route = false ∧
        (pySplit '/' route).length ≠ (pySplit '/' path).length
      then some (false, []) else matchLoop (pySplit '/' path) (pySplit '/' route) 0 []) =
        some (false, kw)
    rw [if_neg (fun hc => hc.2 hlen)]
    apply matchLoop_malformed
    · intro rp hrp
      exact pyContains_false_of_isInfix (mem_pySplit_isInfix route rp hrp) hng
    · rw [hlen]
      omega
    · exact hmal
  · refine ⟨[], ?_⟩
    show (if pyContains ":path" route = false ∧
        (pySplit '/' route).length ≠ (pySplit '/' path).length
      then some (false, []) else matchLoop (pySplit '/' path) (pySplit '/' route) 0 []) =
        some (false, [])
    rw [if_pos ⟨hng, hlen⟩]

/-- Witness for C7: the pattern `/<a>/x<` has a malformed last segment, and
matching any equal-arity path returns `False` without raising. -/
theorem C7_malformed_returns_false_witness :
    (pyContains ":path" "/<a>/x<" = false ∧
      ∃ rp ∈ pySplit '/' "/<a>/x<", malformedSeg rp = true) ∧
    ∃ kw, route_match "/<a>/x<" "/p/q" = some (false, kw) := by
  refine ⟨⟨by decide, by decide⟩, ?_⟩
  exact C7_malformed_returns_false "/<a>/x<" "/p/q" (by decide) (by decide)

theorem finishResponse_eq_some {b : PyObj} {s : String} {hs : List (String × String)}
    {t : Triple} (h : finishResponse b s hs = some t) :
    ∃ n, pyLen b = some n ∧
      t = ⟨response_encode b, s, hs ++ [("Content-Length", toString n)]⟩ := by
  unfold finishResponse at h
  cases hb : pyLen b with
  | none => rw [hb] at h; cases h
  | some n =>
    rw [hb] at h
    refine ⟨n, rfl, ?_⟩
    cases h
    rfl

theorem response_encode_length (b : PyObj) : (response_encode b).length = 1 := by
  cases b <;> rfl

theorem finishResponse_body_len {b : PyObj} {s : String} {hs : List (String × String)}
    {t : Triple} (h : finishResponse b s hs = some t) : t.body.length = 1 := by
  obtain ⟨n, _, rfl⟩ := finishResponse_eq_some h
  exact response_encode_length b

theorem staticResponse_single {app : App} {fs : FS} {path : String} {t : Triple}
    (h : staticResponse app fs path = some t) : t.body.length = 1 := by
  unfold staticResponse at h
  split at h
  · split at h
    · exact finishResponse_body_len h
    · split at h
      · exact finishResponse_body_len h
      · split at h
        · have h3 : (pyLen (get_file_binary fs path [])).map
              (fun n => (⟨[get_file_binary fs path []], "200 OK",
                [("Content-Type", mimeguess path),
                 ("Cache-Control", "public, max-age=43200")] ++
                  [("Content-Length", toString n)]⟩ : Triple)) = some t := h
          cases hb : pyLen (get_file_binary fs path []) with
          | none => rw [hb] at h3; cases h3
          | some n =>
            rw [hb] at h3
            cases h3
            rfl
        · exact finishResponse_body_len h
  · exact finishResponse_body_len h

theorem dispatchRoutes_single {app : App} {env : EnvT} {path : String} :
    ∀ {routes : List RouteEntry} {t : Triple},
      dispatchRoutes app env path routes = some t → t.body.length = 1 := by
  intro routes
  induction routes with
  | nil => intro t h; exact finishResponse_body_len h
  | cons e rest ih =>
    intro t h
    simp only [dispatchRoutes] at h
    split at h
    · cases h
    · split at h
      · split at h
        · split at h
          · exact finishResponse_body_len h
          · split at h
            · cases h
            · exact finishResponse_body_len h
          · split at h <;> exact finishResponse_body_len h
        · exact finishResponse_body_len h
      · exact ih h

/-- C10. Every response triple the dispatcher produces carries its body as
exactly ONE chunk: a single encoded string or a single raw value, never
zero or several chunks. -/
theorem C10_single_chunk (app : App) (fs : FS) (env : EnvT) (path : String)
    (t : Triple) (h : render_to_response app fs env path = some t) :
    t.body.length = 1 := by
  unfold render_to_response at h
  cases hr : app.routes with
  | none =>
    rw [hr] at h
    have h2 : finishResponse (.pstr ("<pre>" ++ logo_text ++ "</pre>"))
        (make_response app.charset 200 .noneH).1
        (make_response app.charset 200 .noneH).2 = some t := h
    exact finishResponse_body_len h2
  | some routes =>
    rw [hr] at h
    cases routes with
    | nil =>
      have h2 : finishResponse (.pstr ("<pre>" ++ logo_text ++ "</pre>"))
          (make_response app.charset 200 .noneH).1
          (make_response app.charset 200 .noneH).2 = some t := h
      exact finishResponse_body_len h2
    | cons e rest =>
      have h2 : (if pyContains app.static_dir path then staticResponse app fs path
          else dispatchRoutes app env path (e :: rest)) = some t := h
      by_cases hst : pyContains app.static_dir path = true
      · rw [if_pos hst] at h2
        exact staticResponse_single h2
      · rw [if_neg hst] at h2
        exact dispatchRoutes_single h2

/-- Witness for C10 at a concrete request: the matched string handler
produces a one-chunk body. -/
theorem C10_single_chunk_witness :
    ∃ t, render_to_response (mkApp [⟨"/x", hStr, ["GET"], none⟩]) fs0 env0 "/x" = some t ∧
      t.body.length = 1 := by
  refine ⟨⟨[.pbytes (utf8Bytes "hi")], "200 OK",
    [("Content-Type", "text/html;charset=UTF-8"), ("Content-Length", "2")]⟩, rfl, ?_⟩
  exact C10_single_chunk (mkApp [⟨"/x", hStr, ["GET"], none⟩]) fs0 env0 "/x" _ rfl

theorem finishResponse_isSome {b : PyObj} (s : String) (hs : List (String × String))
    (hb : pyLen b ≠ none) : (finishResponse b s hs).isSome = true := by
  unfold finishResponse
  cases hv : pyLen b with
  | none => exact absurd hv hb
  | some n => rfl

theorem dispatchStep_isSome (app : App) (env : EnvT) (path : String) (e : RouteEntry)
    (kwargs : Dict) (hho : handlerOk (e.handler env kwargs)) :
    (if methodAllowed env e.methods then
      match e.handler env kwargs with
      | .tuple3 body status_str headers => finishResponse body status_str headers
      | .tuple2 body status =>
        match pyIntOf status with
        | none => none
        | some code =>
          let sh := make_response app.charset code .noneH
          finishResponse body sh.1 sh.2
      | .obj o =>
        match o with
        | .pstr s =>
          let sh := make_response app.charset 200 .noneH
          finishResponse (.pstr s) sh.1 sh.2
        | _ =>
          let sh := make_response app.charset 400 .noneH
          finishResponse (.pstr (incompatibleBody path)) sh.1 sh.2
    else
      let sh := make_response app.charset 405 .noneH
      finishResponse (.pstr "<h1>405 Method not allowed</h1>") sh.1 sh.2).isSome = true := by
  by_cases hma : methodAllowed env e.methods = true
  · rw [if_pos hma]
    cases hhr : e.handler env kwargs with
    | tuple3 body st hs =>
      rw [hhr] at hho
      exact finishResponse_isSome st hs hho
    | tuple2 body st =>
      rw [hhr] at hho
      have hho2 : pyLen body ≠ none ∧ pyIntOf st ≠ none := hho
      show (match pyIntOf st with
        | none => (none : Option Triple)
        | some code =>
          let sh := make_response app.charset code MRHeaders.noneH
          finishResponse body sh.1 sh.2).isSome = true
      cases hiv : pyIntOf st with
      | none => exact absurd hiv hho2.2
      | some code => exact finishResponse_isSome _ _ hho2.1
    | obj o =>
      cases o with
      | pstr s => exact finishResponse_isSome _ _ (by simp [pyLen])
      | pbytes bs => exact finishResponse_isSome _ _ (by simp [pyLen])
      | pdict d => exact finishResponse_isSome _ _ (by simp [pyLen])
      | pnone => exact finishResponse_isSome _ _ (by simp [pyLen])
  · rw [if_neg hma]
    exact finishResponse_isSome _ _ (by simp [pyLen])

theorem dispatchRoutes_total (app : App) (env : EnvT) (path : String) :
    ∀ routes : List RouteEntry,
      (∀ e ∈ routes, route_match e.route path ≠ none) →
      (∀ e ∈ routes, ∀ kw, handlerOk (e.handler env kw)) →
      (dispatchRoutes app env path routes).isSome = true := by
  intro routes
  induction routes with
  | nil =>
    intro _ _
    exact finishResponse_isSome _ _ (by simp [pyLen])
  | cons e rest ih =>
    intro hm hh
    simp only [dispatchRoutes]
    cases hmv : route_match e.route path with
    | none => exact absurd hmv (hm e (by simp))
    | some pr =>
      obtain ⟨matched, kwargs⟩ := pr
      cases matched with
      | false =>
        show (dispatchRoutes app env path rest).isSome = true
        exact ih (fun e2 he2 => hm e2 (by simp [he2])) (fun e2 he2 => hh e2 (by simp [he2]))
      | true =>
        exact dispatchStep_isSome app env path e kwargs (hh e (by simp) kwargs)

/-- C5 amended. The dispatcher returns a well-formed triple for every
request, PROVIDED (i) the request does not take the static-file branch,
(ii) no registered pattern makes `route_match` raise on this path (a
greedy-mode pattern whose non-greedy tail out-runs the path raises
`IndexError`), and (iii) every handler return has a `len`-able body and, in
a 2-tuple, an `int(...)`-convertible status.  Outside those provisos a
per-request error escapes the core uncaught, as the counterexample
shows. -/
theorem C5_dispatch_total (app : App) (fs : FS) (env : EnvT) (path : String)
    (hstatic : pyContains app.static_dir path = false)
    (hm : ∀ e ∈ app.routes.getD [], route_match e.route path ≠ none)
    (hh : ∀ e ∈ app.routes.getD [], ∀ kw, handlerOk (e.handler env kw)) :
    (render_to_response app fs env path).isSome = true := by
  unfold render_to_response
  cases hr : app.routes with
  | none =>
    show (logoResponse app).isSome = true
    exact finishResponse_isSome _ _ (by simp [pyLen])
  | some routes =>
    cases routes with
    | nil =>
      show (logoResponse app).isSome = true
      exact finishResponse_isSome _ _ (by simp [pyLen])
    | cons e rest =>
      show (if pyContains app.static_dir path then staticResponse app fs path
        else dispatchRoutes app env path (e :: rest)).isSome = true
      rw [if_neg (by simp [hstatic])]
      exact dispatchRoutes_total app env path (e :: rest)
        (by rw [hr] at hm; simpa using hm) (by rw [hr] at hh; simpa using hh)

/-- Witness for C5 on a concrete GET request matched by a string-returning
handler. -/
theorem C5_dispatch_total_witness :
    (render_to_response (mkApp [⟨"/x", hStr, ["GET"], none⟩]) fs0 env0 "/x").isSome = true := by
  apply C5_dispatch_total
  · rfl
  · intro e he
    rcases List.mem_singleton.1 he with rfl
    decide
  · intro e he kw
    rcases List.mem_singleton.1 he with rfl
    exact trivial

theorem finish_part1 {b : PyObj} {s : String} {hs : List (String × String)} {t : Triple}
    (h : finishResponse b s hs = some t) :
    ∃ pre n, pyLen pre = some n ∧ t.body = response_encode pre ∧
      t.headers.getLast? = some ("Content-Length", toString n) := by
  obtain ⟨n, hn, rfl⟩ := finishResponse_eq_some h
  exact ⟨b, n, hn, rfl, List.getLast?_concat _⟩

theorem finish_part2 {b : PyObj} {s v : String} {t : Triple}
    (h : finishResponse b s [("Content-Type", v)] = some t) :
    t.headers.countP (fun p => p.1 == "Content-Type") = 1 ∧
    t.headers.countP (fun p => p.1 == "Content-Length") = 1 := by
  obtain ⟨n, hn, rfl⟩ := finishResponse_eq_some h
  constructor <;> simp +decide [List.countP_append, List.countP_cons]

theorem get_file_binary_encode (fs : FS) (fn : String) (args : List String) :
    response_encode (get_file_binary fs fn args) = [get_file_binary fs fn args] := by
  unfold get_file_binary
  cases search_file fs fn args <;> rfl

theorem staticResponse_C4 {app : App} {fs : FS} {path : String} {t : Triple}
    (h : staticResponse app fs path = some t) :
    (∃ pre n, pyLen pre = some n ∧ t.body = response_encode pre ∧
      t.headers.getLast? = some ("Content-Length", toString n)) ∧
    (t.headers.countP (fun p => p.1 == "Content-Type") = 1 ∧
     t.headers.countP (fun p => p.1 == "Content-Length") = 1) := by
  unfold staticResponse at h
  split at h
  · split at h
    · exact ⟨finish_part1 h, finish_part2 h⟩
    · split at h
      · exact ⟨finish_part1 h, finish_part2 h⟩
      · split at h
        · have h3 : (pyLen (get_file_binary fs path [])).map
              (fun n => (⟨[get_file_binary fs path []], "200 OK",
                [("Content-Type", mimeguess path),
                 ("Cache-Control", "public, max-age=43200")] ++
                  [("Content-Length", toString n)]⟩ : Triple)) = some t := h
          cases hb : pyLen (get_file_binary fs path []) with
          | none => rw [hb] at h3; cases h3
          | some n =>
            rw [hb] at h3
            cases h3
            refine ⟨⟨get_file_binary fs path [], n, hb,
              (get_file_binary_encode fs path []).symm, List.getLast?_concat _⟩, ?_, ?_⟩
            · simp +decide [List.countP_append, List.countP_cons]
            · simp +decide [List.countP_append, List.countP_cons]
        · exact ⟨finish_part1 h, finish_part2 h⟩
  · exact ⟨finish_part1 h, finish_part2 h⟩

theorem dispatchRoutes_C4 (app : App) (env : EnvT) (path : String) :
    ∀ (routes : List RouteEntry) (t : Triple),
      dispatchRoutes app env path routes = some t →
      (∃ pre n, pyLen pre = some n ∧ t.body = response_encode pre ∧
        t.headers.getLast? = some ("Content-Length", toString n)) ∧
      ((∀ e ∈ routes, ∀ (env2 : EnvT) (kw : Dict), isTuple3 (e.handler env2 kw) = false) →
        t.headers.countP (fun p => p.1 == "Content-Type") = 1 ∧
        t.headers.countP (fun p => p.1 == "Content-Length") = 1) := by
  intro routes
  induction routes with
  | nil =>
    intro t h
    exact ⟨finish_part1 h, fun _ => finish_part2 h⟩
  | cons e rest ih =>
    intro t h
    simp only [dispatchRoutes] at h
    cases hmv : route_match e.route path with
    | none => rw [hmv] at h; cases h
    | some pr =>
      rw [hmv] at h
      obtain ⟨matched, kwargs⟩ := pr
      cases matched with
      | false =>
        have h2 : dispatchRoutes app env path rest = some t := h
        obtain ⟨p1, p2⟩ := ih t h2
        exact ⟨p1, fun hh => p2 (fun e2 he2 => hh e2 (by simp [he2]))⟩
      | true =>
        have h2 : (if methodAllowed env e.methods then
            match e.handler env kwargs with
            | .tuple3 body status_str headers => finishResponse body status_str headers
            | .tuple2 body status =>
              match pyIntOf status with
              | none => none
              | some code =>
                let sh := make_response app.charset code MRHeaders.noneH
                finishResponse body sh.1 sh.2
            | .obj o =>
              match o with
              | .pstr s =>
                let sh := make_response app.charset 200 MRHeaders.noneH
                finishResponse (.pstr s) sh.1 sh.2
              | _ =>
                let sh := make_response app.charset 400 MRHeaders.noneH
                finishResponse (.pstr (incompatibleBody path)) sh.1 sh.2
          else
            let sh := make_response app.charset 405 MRHeaders.noneH
            finishResponse (.pstr "<h1>405 Method not allowed</h1>") sh.1 sh.2) =
          some t := h
        by_cases hma : methodAllowed env e.methods = true
        · rw [if_pos hma] at h2
          cases hhr : e.handler env kwargs with
          | tuple3 body st hs3 =>
            rw [hhr] at h2
            have h3 : finishResponse body st hs3 = some t := h2
            refine ⟨finish_part1 h3, fun hh => ?_⟩
            have hll := hh e (by simp) env kwargs
            rw [hhr] at hll
            cases hll
          | tuple2 body st =>
            rw [hhr] at h2
            have h3 : (match pyIntOf st with
              | none => (none : Option Triple)
              | some code =>
                finishResponse body (toString code ++ " " ++ http_responses code)
                  [("Content-Type", "text/html;charset=" ++ app.charset)]) = some t := h2
            cases hiv : pyIntOf st with
            | none => rw [hiv] at h3; cases h3
            | some code =>
              rw [hiv] at h3
              exact ⟨finish_part1 h3, fun _ => finish_part2 h3⟩
          | obj o =>
            rw [hhr] at h2
            cases o with
            | pstr s0 =>
              have h3 : finishResponse (.pstr s0)
                  (toString (200 : Int) ++ " " ++ http_responses 200)
                  [("Content-Type", "text/html;charset=" ++ app.charset)] = some t := h2
              exact ⟨finish_part1 h3, fun _ => finish_part2 h3⟩
            | pbytes bs =>
              have h3 : finishResponse (.pstr (incompatibleBody path))
                  (toString (400 : Int) ++ " " ++ http_responses 400)
                  [("Content-Type", "text/html;charset=" ++ app.charset)] = some t := h2
              exact ⟨finish_part1 h3, fun _ => finish_part2 h3⟩
            | pdict d =>
              have h3 : finishResponse (.pstr (incompatibleBody path))
                  (toString (400 : Int) ++ " " ++ http_responses 400)
                  [("Content-Type", "text/html;charset=" ++ app.charset)] = some t := h2
              exact ⟨finish_part1 h3, fun _ => finish_part2 h3⟩
            | pnone =>
              have h3 : finishResponse (.pstr (incompatibleBody path))
                  (toString (400 : Int) ++ " " ++ http_responses 400)
                  [("Content-Type", "text/html;charset=" ++ app.charset)] = some t := h2
              exact ⟨finish_part1 h3, fun _ => finish_part2 h3⟩
        · rw [if_neg hma] at h2
          have h3 : finishResponse (.pstr "<h1>405 Method not allowed</h1>")
              (toString (405 : Int) ++ " " ++ http_responses 405)
              [("Content-Type", "text/html;charset=" ++ app.charset)] = some t := h2
          exact ⟨finish_part1 h3, fun _ => finish_part2 h3⟩

/-- C4 amended. Every triple the dispatcher emits ends with an APPENDED
`Content-Length` header whose value is `str(len(response_body))` of the
pre-encoding body — the character count for string bodies, which need not
be the encoded byte count for non-ASCII text.  Exactly one `Content-Type`
and exactly one `Content-Length` is guaranteed only when no handler
returns a 3-tuple: a 3-tuple's caller-supplied headers are kept verbatim,
so extra `Content-Type`/`Content-Length` entries survive beside the
appended one. -/
theorem C4_content_length_appended (app : App) (fs : FS) (env : EnvT) (path : String)
    (t : Triple) (h : render_to_response app fs env path = some t) :
    (∃ pre n, pyLen pre = some n ∧ t.body = response_encode pre ∧
      t.headers.getLast? = some ("Content-Length", toString n)) ∧
    ((∀ e ∈ app.routes.getD [], ∀ (env2 : EnvT) (kw : Dict),
        isTuple3 (e.handler env2 kw) = false) →
      t.headers.countP (fun p => p.1 == "Content-Type") = 1 ∧
      t.headers.countP (fun p => p.1 == "Content-Length") = 1) := by
  unfold render_to_response at h
  cases hr : app.routes with
  | none =>
    rw [hr] at h
    have h2 : finishResponse (.pstr ("<pre>" ++ logo_text ++ "</pre>"))
        (toString (200 : Int) ++ " " ++ http_responses 200)
        [("Content-Type", "text/html;charset=" ++ app.charset)] = some t := h
    exact ⟨finish_part1 h2, fun _ => finish_part2 h2⟩
  | some routes =>
    rw [hr] at h
    cases routes with
    | nil =>
      have h2 : finishResponse (.pstr ("<pre>" ++ logo_text ++ "</pre>"))
          (toString (200 : Int) ++ " " ++ http_responses 200)
          [("Content-Type", "text/html;charset=" ++ app.charset)] = some t := h
      exact ⟨finish_part1 h2, fun _ => finish_part2 h2⟩
    | cons e rest =>
      have h2 : (if pyContains app.static_dir path then staticResponse app fs path
          else dispatchRoutes app env path (e :: rest)) = some t := h
      by_cases hst : pyContains app.static_dir path = true
      · rw [if_pos hst] at h2
        obtain ⟨p1, p2⟩ := staticResponse_C4 h2
        exact ⟨p1, fun _ => p2⟩
      · rw [if_neg hst] at h2
        obtain ⟨p1, p2⟩ := dispatchRoutes_C4 app env path (e :: rest) t h2
        exact ⟨p1, fun hh => p2 (by simpa using hh)⟩

/-- Witness for C4 at a concrete request through a 2-tuple handler. -/
theorem C4_content_length_appended_witness :
    ∃ t, render_to_response (mkApp [⟨"/x", hErr, ["GET"], none⟩]) fs0 env0 "/x" = some t ∧
      t.headers.getLast? = some ("Content-Length", "3") ∧
      t.headers.countP (fun p => p.1 == "Content-Type") = 1 ∧
      t.headers.countP (fun p => p.1 == "Content-Length") = 1 := by
  obtain ⟨p1, p2⟩ := C4_content_length_appended (mkApp [⟨"/x", hErr, ["GET"], none⟩])
    fs0 env0 "/x"
    ⟨[.pbytes (utf8Bytes "err")], "404 Not Found",
      [("Content-Type", "text/html;charset=UTF-8"), ("Content-Length", "3")]⟩ rfl
  refine ⟨_, rfl, ?_, p2 ?_⟩
  · decide
  · intro e he env2 kw
    rcases List.mem_singleton.1 he with rfl
    rfl

/-- C3 amended. A mapping returned by a handler is NOT rendered as JSON:
being neither a tuple nor a `str`, it takes the incompatible-response
branch, and the dispatcher answers `400 Bad Request` with the diagnostic
body.  JSON output requires the handler itself to return a tuple, e.g. the
one built by the `jsonify` helper, which carries status `200 OK` and a
`Content-Type` of `application/json;charset=<charset>`. -/
theorem C3_dict_handler_400 (app : App) (fs : FS) (env : EnvT)
    (path p : String) (h : Handler) (ms : List String) (nm : Option String)
    (d : List (String × Jx)) (kw : Dict)
    (happ : app.routes = some [⟨p, h, ms, nm⟩])
    (hstatic : pyContains app.static_dir path = false)
    (hm : route_match p path = some (true, kw))
    (hmeth : methodAllowed env ms = true)
    (hh : h env kw = .obj (.pdict d)) :
    render_to_response app fs env path =
      some ⟨[.pbytes (utf8Bytes (incompatibleBody path))], "400 Bad Request",
        [("Content-Type", "text/html;charset=" ++ app.charset),
         ("Content-Length", toString (incompatibleBody path).length)]⟩ ∧
    jsonify app.charset [("a", .jnum 1)] =
      ("\x7b\"a\": 1\x7d", "200 OK",
        [("Content-Type", "application/json;charset=" ++ app.charset),
         ("Content-Length", "8")]) := by
  constructor
  · unfold render_to_response
    rw [happ]
    show (if pyContains app.static_dir path then staticResponse app fs path
      else dispatchRoutes app env path [⟨p, h, ms, nm⟩]) = _
    rw [if_neg (by simp [hstatic])]
    simp only [dispatchRoutes]
    have hm2 : route_match (⟨p, h, ms, nm⟩ : RouteEntry).route path = some (true, kw) := hm
    rw [hm2]
    have hmeth2 : methodAllowed env (⟨p, h, ms, nm⟩ : RouteEntry).methods = true := hmeth
    show (if methodAllowed env (⟨p, h, ms, nm⟩ : RouteEntry).methods then
        match (⟨p, h, ms, nm⟩ : RouteEntry).handler env kw with
        | .tuple3 body status_str headers => finishResponse body status_str headers
        | .tuple2 body status =>
          match pyIntOf status with
          | none => none
          | some code =>
            let sh := make_response app.charset code MRHeaders.noneH
            finishResponse body sh.1 sh.2
        | .obj o =>
          match o with
          | .pstr s =>
            let sh := make_response app.charset 200 MRHeaders.noneH
            finishResponse (.pstr s) sh.1 sh.2
          | _ =>
            let sh := make_response app.charset 400 MRHeaders.noneH
            finishResponse (.pstr (incompatibleBody path)) sh.1 sh.2
      else
        let sh := make_response app.charset 405 MRHeaders.noneH
        finishResponse (.pstr "<h1>405 Method not allowed</h1>") sh.1 sh.2) = _
    rw [if_pos hmeth2]
    have hh2 : (⟨p, h, ms, nm⟩ : RouteEntry).handler env kw = .obj (.pdict d) := hh
    rw [hh2]
    rfl
  · rfl

/-- Witness for C3 through the amended theorem at a concrete request. -/
theorem C3_dict_handler_400_witness :
    render_to_response (mkApp [⟨"/d", hDict, ["GET"], none⟩]) fs0 env0 "/d" =
      some ⟨[.pbytes (utf8Bytes (incompatibleBody "/d"))], "400 Bad Request",
        [("Content-Type", "text/html;charset=UTF-8"),
         ("Content-Length", toString (incompatibleBody "/d").length)]⟩ ∧
    jsonify "UTF-8" [("a", .jnum 1)] =
      ("\x7b\"a\": 1\x7d", "200 OK",
        [("Content-Type", "application/json;charset=UTF-8"),
         ("Content-Length", "8")]) :=
  C3_dict_handler_400 (mkApp [⟨"/d", hDict, ["GET"], none⟩]) fs0 env0 "/d" "/d"
    hDict ["GET"] none [("a", .jnum 1)] [] rfl rfl rfl rfl rfl
